import Mathlib

/-!
Shallow embedding of the block-based memory allocator of the repository
(`src/src/vsg/core/Allocator.cpp`), covering the intrusive allocator's
`MemoryBlock` (construction, `allocate`, `deallocate` with its merge policy)
and the `IntrusiveAllocator` facade, plus the recursion structure of
`OriginalBlockAllocator::allocate`.

Modelling conventions:
* An `Element` is a 4-byte control record overlaid on the managed memory.
  We model each element as one natural number `w < 2^32` (the raw 32-bit
  word of the C++ union).  The bitfield overlay `previous : 15, next : 15,
  status : 2` is read and written through the accessor functions below,
  with the truncation (`% 2^15`, `% 4`) that the C++ bitfield assignment
  performs.  The `index` overlay is the whole word (`% 2^32` on writes).
* The managed buffer is modelled as a total function `Nat → Nat` from
  element positions to words.  The C++ buffer is uninitialised storage; the
  model starts from the all-zero function (only position 0 is actually
  zeroed by the constructor, and no verified property depends on the
  contents of cells the code never wrote).
* `size_t` counters (`FreeList::count`) are modelled as unbounded naturals;
  no verified scenario reaches the `size_t` wrap of `--count` at 0.
* Machine subtraction on unsigned values is modelled by `modSub`
  (subtraction mod `2^k`), matching the C++ wrap-around semantics.
* Fallible paths (`throw` in the C++ code) are modelled with
  `Except String`; the state component returned alongside an `.error` is
  the state at the moment of the throw (the code performs no writes before
  either of its throws).
* Loops whose termination depends on the data (the free-list walk in
  `allocate`, the carving loop of the constructor) are modelled with an
  explicit fuel argument, instantiated generously by the callers; theorems
  that need the loop to run to completion carry the hypotheses under which
  the C++ loop makes progress.
-/

namespace VsgAlloc

/-- `sizeof(vsg::IntrusiveAllocator::MemoryBlock::Element)`: 4 bytes. -/
def sizeofElement : Nat := 4

/-- `2^15`, the range of the `previous`/`next` 15-bit bitfields. -/
def E15 : Nat := 32768

/-- `2^32`, the range of `Element::Index` (a `uint32_t` word). -/
def U32 : Nat := 4294967296

/-- `2^64`, the range of `size_t`. -/
def U64 : Nat := 18446744073709551616

/-- Wrap-around subtraction `(a - b) mod m` of unsigned machine arithmetic. -/
def modSub (a b m : Nat) : Nat := (a + (m - b % m)) % m

/-- Read the `previous` bitfield (bits 0-14) of an element word. -/
def elemPrev (w : Nat) : Nat := w % E15

/-- Read the `next` bitfield (bits 15-29) of an element word. -/
def elemNext (w : Nat) : Nat := w / E15 % E15

/-- Read the `status` bitfield (bits 30-31) of an element word. -/
def elemStatus (w : Nat) : Nat := w / (E15 * E15) % 4

/-- `Element{previous, next, status}` constructor: packs the three bitfields,
truncating each exactly as the C++ bitfield assignment does. -/
def mkElem (p n s : Nat) : Nat := p % E15 + n % E15 * E15 + s % 4 * (E15 * E15)

/-- Assignment to the `previous` bitfield of an existing element word. -/
def setPrev (w p : Nat) : Nat := mkElem p (elemNext w) (elemStatus w)

/-- Assignment to the `next` bitfield of an existing element word. -/
def setNext (w n : Nat) : Nat := mkElem (elemPrev w) n (elemStatus w)

/-- Assignment to the `status` bitfield of an existing element word. -/
def setStatus (w s : Nat) : Nat := mkElem (elemPrev w) (elemNext w) s

/-- Memory is a total map from element positions to 32-bit words. -/
def Mem : Type := Nat → Nat

/-- Pointwise update of the memory map (one element store). -/
def wr (m : Mem) (i v : Nat) : Mem := fun j => if j = i then v else m j

/-- Read of the memory map. -/
def rd (m : Mem) (i : Nat) : Nat := m i

/-- State of one `IntrusiveAllocator::MemoryBlock`.  The single `FreeList`
created by the constructor is inlined as the `head`/`count` fields (the
constructor emplaces exactly one `FreeList`, and `deallocate` only ever
uses `freeLists.front()`). -/
structure MemoryBlock where
  /-- byte address of `memory` (the start of the aligned raw buffer). -/
  base : Nat
  alignment : Nat
  blockSize : Nat
  blockAlignment : Nat
  elementAlignment : Nat
  /-- number of elements in the buffer: `blockSize / sizeof(Element)`. -/
  numElements : Nat
  /-- `blockSize / alignment`. -/
  capacity : Nat
  maximumAllocationSize : Nat
  memory : Mem
  /-- `freeLists.front().head`. -/
  head : Nat
  /-- `freeLists.front().count`. -/
  count : Nat

/-- Modelled from the spec: `computeMaxiumAllocationSize` is declared in the
missing header `include/vsg/core/Allocator.h`; §4.1 of the spec defines it as
the largest payload that fits in one slot given that `next_offset` must fit
in u15 (a slot of span `n` elements carries `(n-1) * sizeof(Element)` payload
bytes, `n ≤ 2^15 - 1`) and that it is precomputed from `blockSize` and
`alignment` (a block cannot carry more than `blockSize - alignment` payload). -/
def computeMaxiumAllocationSize (blockSize alignment : Nat) : Nat :=
  min (blockSize - alignment) ((E15 - 2) * sizeofElement)

/-- The carving loop of `IntrusiveAllocator::MemoryBlock::MemoryBlock`
(lines 546-559): cuts `[position, capacity)` into maximal free slots of at
most `max_slot_size = 1 << 15` elements, threading them into the slot chain
and the free list.  Returns the written memory and the final
`freeList.count`.  `fuel` bounds the number of iterations; the constructor
passes `capacity`, which suffices whenever the C++ loop terminates at all
(each iteration advances `position` by at least one). -/
def carveLoop (ea capacity : Nat) : Nat → Mem → Nat → Nat → Nat → Mem × Nat
  | 0, mem, _, _, count => (mem, count)
  | fuel + 1, mem, previousPosition, position, count =>
    if position < capacity then
      let alignedStart := (position + 32768) / ea * ea
      let nextPosition := min (alignedStart - 1) capacity
      let mem1 := wr mem position
        (mkElem (if previousPosition = 0 then 0 else position - previousPosition)
          (nextPosition - position) 1)
      let mem2 := wr mem1 (position + 1) (previousPosition % U32)
      let mem3 := wr mem2 (position + 2)
        ((if nextPosition < capacity then nextPosition else 0) % U32)
      carveLoop ea capacity fuel mem3 position nextPosition (count + 1)
    else (mem, count)

/-- `IntrusiveAllocator::MemoryBlock::MemoryBlock(name, blockSize, alignment)`
(lines 514-559).  `base` is the byte address at which the model places the
raw buffer returned by `operator new` (the C++ address is chosen by the
system allocator; the facade model supplies it from its address counter). -/
def mkMemoryBlock (base blockSize alignment : Nat) : MemoryBlock :=
  let alignment1 := max alignment sizeofElement
  let elementAlignment := alignment1 / sizeofElement
  let blockAlignment := max (max alignment1 16) 16
  let blockSize1 := (blockSize + alignment1 - 1) / alignment1 * alignment1
  let numElements := blockSize1 / sizeofElement
  let capacity := blockSize1 / alignment1
  let head0 := (1 + elementAlignment) / elementAlignment * elementAlignment - 1
  let maximumAllocationSize := computeMaxiumAllocationSize blockSize1 alignment1
  let mem0 : Mem := wr (fun _ => 0) 0 0
  let carved := carveLoop elementAlignment capacity capacity mem0 0 head0 0
  { base := base
    alignment := alignment1
    blockSize := blockSize1
    blockAlignment := blockAlignment
    elementAlignment := elementAlignment
    numElements := numElements
    capacity := capacity
    maximumAllocationSize := maximumAllocationSize
    memory := carved.1
    head := head0
    count := carved.2 }

/-- `MemoryBlock::within(ptr)`: modelled from the spec (§4.2 "Queries":
"pointer falls inside the block's byte range"; the inline definition lives in
the missing header).  The byte range is `[memory, memoryEnd)` with
`memoryEnd = memory + blockSize / sizeof(Element)` elements. -/
def MemoryBlock.within (bl : MemoryBlock) (ptr : Nat) : Bool :=
  bl.base ≤ ptr && ptr < bl.base + sizeofElement * bl.numElements

/-- `numElementsToBeUsed` computation of `MemoryBlock::allocate` (line 633):
`max(ceil(size / sizeof(Element)), minimumNumElementsInSlot)`, cast to the
32-bit `Element::Index`. -/
def numElementsToBeUsedCalc (size : Nat) : Nat :=
  max ((size + sizeofElement - 1) / sizeofElement) 3 % U32

/-- `nextAlignedStart` computation of `MemoryBlock::allocate` (line 634):
`((freePosition + 1 + numElementsToBeUsed + elementAlignment) / elementAlignment)
 * elementAlignment`, truncated to the 32-bit `Element::Index`. -/
def nextAlignedStartCalc (freePosition numElementsToBeUsed elementAlignment : Nat) : Nat :=
  (freePosition + 1 + numElementsToBeUsed + elementAlignment) / elementAlignment
    * elementAlignment % U32

/-- The free-list walk of `MemoryBlock::allocate` (lines 608-718): starting
from `freePosition`, find the first free slot whose payload can hold `size`
bytes, split it or consume it whole, mark it allocated and return the payload
address.  `fuel` bounds the walk; a walk that exhausts its fuel yields
`.ok none` (the C++ loop would spin on such — corrupted, cyclic — states). -/
def allocateLoop (size : Nat) : Nat → MemoryBlock → Nat → Except String (Option Nat) × MemoryBlock
  | 0, bl, _ => (.ok none, bl)
  | fuel + 1, bl, freePosition =>
    if freePosition = 0 then (.ok none, bl)
    else
      let slot := bl.memory freePosition
      if elemStatus slot ≠ 1 then (.error "Warning: allocated slot found in freeList", bl)
      else
        let previousFreePosition := bl.memory (freePosition + 1)
        let nextFreePosition := bl.memory (freePosition + 2)
        let slotSpace := elemNext slot
        let nextPosition := (freePosition + slotSpace) % U32
        let slotSize := sizeofElement * modSub slotSpace 1 U64 % U64
        if size ≤ slotSize then
          let numElementsToBeUsed := numElementsToBeUsedCalc size
          let nextAlignedStart :=
            nextAlignedStartCalc freePosition numElementsToBeUsed bl.elementAlignment
          let minimumAlignedEnd := (nextAlignedStart + 3) % U32
          if minimumAlignedEnd < nextPosition then
            -- enough space in slot to split
            let newSlotPosition := modSub nextAlignedStart 1 U32
            let newNext := modSub newSlotPosition freePosition E15
            let mem1 := wr bl.memory freePosition (setNext slot newNext)
            let newSlotNext := modSub nextPosition newSlotPosition E15
            let mem2 := wr mem1 newSlotPosition (mkElem newNext newSlotNext 1)
            let mem3 := wr mem2 (newSlotPosition + 1) previousFreePosition
            let mem4 := wr mem3 (newSlotPosition + 2) nextFreePosition
            let mem5 := if previousFreePosition ≠ 0 then
                wr mem4 (previousFreePosition + 2) newSlotPosition
              else mem4
            let mem6 := if nextFreePosition ≠ 0 then
                wr mem5 (nextFreePosition + 1) newSlotPosition
              else mem5
            let mem7 := if nextPosition < bl.capacity then
                wr mem6 nextPosition (setPrev (rd mem6 nextPosition) newSlotNext)
              else mem6
            let head1 := if freePosition = bl.head then newSlotPosition else bl.head
            let mem8 := wr mem7 freePosition (setStatus (rd mem7 freePosition) 0)
            (.ok (some (bl.base + sizeofElement * (freePosition + 1))),
              { bl with memory := mem8, head := head1 })
          else
            -- not enough space to split up slot, so remove it from freeList
            let mem5 := if previousFreePosition ≠ 0 then
                wr bl.memory (previousFreePosition + 2) nextFreePosition
              else bl.memory
            let mem6 := if nextFreePosition ≠ 0 then
                wr mem5 (nextFreePosition + 1) previousFreePosition
              else mem5
            let head1 := if freePosition = bl.head then nextFreePosition else bl.head
            let mem8 := wr mem6 freePosition (setStatus (rd mem6 freePosition) 0)
            (.ok (some (bl.base + sizeofElement * (freePosition + 1))),
              { bl with memory := mem8, head := head1, count := bl.count - 1 })
        else
          allocateLoop size fuel bl nextFreePosition

/-- `IntrusiveAllocator::MemoryBlock::allocate(size)` (lines 592-726). -/
def MemoryBlock.allocate (bl : MemoryBlock) (size : Nat) : Except String (Option Nat) × MemoryBlock :=
  if size > bl.maximumAllocationSize then (.ok none, bl)
  else if bl.count = 0 then (.ok none, bl)
  else allocateLoop size (bl.numElements + 1) bl bl.head

/-- Header position of the slot being deallocated:
`C = static_cast<Element::Index>(static_cast<Element*>(ptr) - memory) - 1`
(line 761), in 32-bit `Element::Index` arithmetic. -/
def deallocIndexC (bl : MemoryBlock) (ptr : Nat) : Nat :=
  modSub ((ptr - bl.base) / sizeofElement % U32) 1 U32

/-- The `mergePCN` lambda of `MemoryBlock::deallocate` (lines 821-900):
three-way merge of the previous slot `P`, the current slot `C` and the next
slot `N` into `P`, unstitching `N` from the free list. -/
def mergePCN (bl : MemoryBlock) (P C N NN NPF NNF PPF PNF : Nat) : MemoryBlock :=
  let m1 := wr bl.memory P
    (setNext (bl.memory P)
      (elemNext (bl.memory P) + elemNext (bl.memory C) + elemNext (bl.memory N)))
  let m2 := if NN ≠ 0 then wr m1 NN (setPrev (rd m1 NN) (elemNext (rd m1 P))) else m1
  if PNF = N then
    -- case 1. in order sequential
    let m3 := wr m2 (P + 2) NNF
    let m4 := if NNF ≠ 0 then wr m3 (NNF + 1) P else m3
    { bl with memory := m4, count := bl.count - 1 }
  else if PPF = N then
    -- case 2. reverse sequential
    if bl.head = N then
      { bl with memory := wr m2 (P + 1) 0, head := P, count := bl.count - 1 }
    else
      let m3 := wr m2 (P + 1) NPF
      let m4 := if NPF ≠ 0 then wr m3 (NPF + 2) P else m3
      { bl with memory := m4, count := bl.count - 1 }
  else
    -- case 3. disconnected
    let m3 := if NPF ≠ 0 then wr m2 (NPF + 2) NNF else m2
    let m4 := if NNF ≠ 0 then wr m3 (NNF + 1) NPF else m3
    let head1 := if bl.head = N then NNF else bl.head
    { bl with memory := m4, head := head1, count := bl.count - 1 }

/-- The `mergePC` lambda of `MemoryBlock::deallocate` (lines 903-917):
two-way merge of `P` and `C`; the free-list links need no update. -/
def mergePC (bl : MemoryBlock) (P C N : Nat) : MemoryBlock :=
  let w := setNext (bl.memory P) (elemNext (bl.memory P) + elemNext (bl.memory C))
  let m1 := wr bl.memory P w
  let m2 := if N ≠ 0 then wr m1 N (setPrev (rd m1 N) (elemNext w)) else m1
  { bl with memory := m2 }

/-- The `mergeCN` lambda of `MemoryBlock::deallocate` (lines 920-942):
two-way merge of `C` and `N`; `C` takes `N`'s place in the free list. -/
def mergeCN (bl : MemoryBlock) (C N NN NPF NNF : Nat) : MemoryBlock :=
  let m1 := wr bl.memory C (setStatus (bl.memory C) 1)
  let m2 := wr m1 C (setNext (rd m1 C) (elemNext (rd m1 C) + elemNext (rd m1 N)))
  let m3 := if NN ≠ 0 then wr m2 NN (setPrev (rd m2 NN) (elemNext (rd m2 C))) else m2
  let m4 := if NPF ≠ 0 then wr m3 (NPF + 2) C else m3
  let m5 := if NNF ≠ 0 then wr m4 (NNF + 1) C else m4
  let m6 := wr m5 (C + 1) NPF
  let m7 := wr m6 (C + 2) NNF
  let head1 := if bl.head = N then C else bl.head
  { bl with memory := m7, head := head1 }

/-- The `standalone` lambda of `MemoryBlock::deallocate` (lines 945-968):
insertion of `C` at the head of the free list. -/
def standalone (bl : MemoryBlock) (C : Nat) : MemoryBlock :=
  let m1 := wr bl.memory C (setStatus (bl.memory C) 1)
  let m2 := wr m1 (C + 1) 0
  let m3 := wr m2 (C + 2) (bl.head % U32)
  let m4 := if bl.head ≠ 0 then wr m3 (bl.head + 1) C else m3
  { bl with memory := m4, head := C, count := bl.count + 1 }

/-- `P`, the previous slot's header position:
`(slot.previous > 0) ? (C - slot.previous) : 0` (line 788). -/
def deallocP (bl : MemoryBlock) (C : Nat) : Nat :=
  if elemPrev (bl.memory C) > 0 then modSub C (elemPrev (bl.memory C)) U32 else 0

/-- `N`, the next slot's header position: `C + slot.next`, zeroed when it
falls at or past `capacity` (lines 789-790). -/
def deallocN (bl : MemoryBlock) (C : Nat) : Nat :=
  let N0 := (C + elemNext (bl.memory C)) % U32
  if N0 ≥ bl.capacity then 0 else N0

/-- `PPF`, `P`'s previous-free link, read only when `P` is a free slot
(lines 793-802). -/
def deallocPPF (bl : MemoryBlock) (P : Nat) : Nat :=
  if P ≠ 0 ∧ elemStatus (bl.memory P) ≠ 0 then bl.memory (P + 1) else 0

/-- `PNF`, `P`'s next-free link, read only when `P` is a free slot
(lines 793-802). -/
def deallocPNF (bl : MemoryBlock) (P : Nat) : Nat :=
  if P ≠ 0 ∧ elemStatus (bl.memory P) ≠ 0 then bl.memory (P + 2) else 0

/-- `NN`, the slot beyond `N`, zeroed at or past `capacity` (lines 805-811). -/
def deallocNN (bl : MemoryBlock) (N : Nat) : Nat :=
  if N ≠ 0 then
    (let NN0 := (N + elemNext (bl.memory N)) % U32
     if NN0 ≥ bl.capacity then 0 else NN0)
  else 0

/-- `NPF`, `N`'s previous-free link, read only when `N` is a free slot
(lines 808-818). -/
def deallocNPF (bl : MemoryBlock) (N : Nat) : Nat :=
  if N ≠ 0 ∧ elemStatus (bl.memory N) ≠ 0 then bl.memory (N + 1) else 0

/-- `NNF`, `N`'s next-free link, read only when `N` is a free slot
(lines 808-818). -/
def deallocNNF (bl : MemoryBlock) (N : Nat) : Nat :=
  if N ≠ 0 ∧ elemStatus (bl.memory N) ≠ 0 then bl.memory (N + 2) else 0

/-- `IntrusiveAllocator::MemoryBlock::deallocate(ptr, size)` (lines 746-1001).
The `size` parameter is accepted but never used by the C++ code (the
parameter is anonymous there). -/
def MemoryBlock.deallocate (bl : MemoryBlock) (ptr size : Nat) :
    Except String Bool × MemoryBlock :=
  if bl.within ptr then
    let C := deallocIndexC bl ptr
    let slot := bl.memory C
    if elemNext slot = 0 then (.error "slot.ext == 0", bl)
    else if elemStatus slot ≠ 0 then
      (.error "Attempt to deallocate already available slot", bl)
    else
      let maxSize := 1 + bl.maximumAllocationSize / sizeofElement
      let P := deallocP bl C
      let N := deallocN bl C
      let PPF := deallocPPF bl P
      let PNF := deallocPNF bl P
      let NN := deallocNN bl N
      let NPF := deallocNPF bl N
      let NNF := deallocNNF bl N
      let bl1 :=
        if P ≠ 0 ∧ elemStatus (bl.memory P) ≠ 0 then
          if N ≠ 0 ∧ elemStatus (bl.memory N) ≠ 0 then
            if elemNext (bl.memory P) + elemNext (bl.memory C) + elemNext (bl.memory N)
                ≤ maxSize then
              mergePCN bl P C N NN NPF NNF PPF PNF
            else if elemNext (bl.memory P) + elemNext (bl.memory C) ≤ maxSize then
              mergePC bl P C N
            else if elemNext (bl.memory C) + elemNext (bl.memory N) ≤ maxSize then
              mergeCN bl C N NN NPF NNF
            else standalone bl C
          else if elemNext (bl.memory P) + elemNext (bl.memory C) ≤ maxSize then
            mergePC bl P C N
          else standalone bl C
        else if N ≠ 0 ∧ elemStatus (bl.memory N) ≠ 0 then
          if elemNext (bl.memory C) + elemNext (bl.memory N) ≤ maxSize then
            mergeCN bl C N NN NPF NNF
          else standalone bl C
        else standalone bl C
      (.ok true, bl1)
  else (.ok false, bl)

/-- One free-list chain walk (following the `next_free` index cells at
`position + 2`), as traversed by `allocate` and `report`. -/
def freeChainAux (mem : Mem) : Nat → Nat → List Nat
  | 0, _ => []
  | fuel + 1, pos => if pos = 0 then [] else pos :: freeChainAux mem fuel (mem (pos + 2))

/-- The free-list chain of a block, from `freeLists.front().head`. -/
def MemoryBlock.freeChain (bl : MemoryBlock) : List Nat :=
  freeChainAux bl.memory (bl.numElements + 1) bl.head

/-- The slot-chain walk (following header `next` offsets), as traversed by
`report` and `validate`: returns the visited header positions and the final
position reached (`capacity` exactly when the chain covers the block). -/
def slotWalkAux (mem : Mem) (capacity : Nat) : Nat → Nat → List Nat × Nat
  | 0, pos => ([], pos)
  | fuel + 1, pos =>
    if pos < capacity then
      let n := elemNext (mem pos)
      if n = 0 then ([pos], pos)
      else
        let r := slotWalkAux mem capacity fuel (pos + n)
        (pos :: r.1, r.2)
    else ([], pos)

/-- A merged slot of `span` elements "fits within `maximum_allocation_size`":
its payload of `(span - 1) * sizeof(Element)` bytes is at most the limit.
(The code tests the equivalent `span ≤ maxSize = 1 + maximumAllocationSize /
sizeof(Element)`.) -/
def spanFits (bl : MemoryBlock) (span : Nat) : Prop :=
  (span - 1) * sizeofElement ≤ bl.maximumAllocationSize

instance (bl : MemoryBlock) (span : Nat) : Decidable (spanFits bl span) :=
  inferInstanceAs (Decidable (_ ≤ _))

/-- The merge policy exactly as claim C1 states it: a definition following the
claim's table (freeness of a neighbour is `status = 1`, a merge happens iff
the combined span fits within `maximum_allocation_size`, with the three-way
merge preferred, then `P+C`, then `C+N`, else a standalone insert), to be
compared with what `MemoryBlock.deallocate` actually does. -/
def claimMergePolicy (bl : MemoryBlock) (C : Nat) : MemoryBlock :=
  let P := deallocP bl C
  let N := deallocN bl C
  let nP := elemNext (bl.memory P)
  let nC := elemNext (bl.memory C)
  let nN := elemNext (bl.memory N)
  if P ≠ 0 ∧ elemStatus (bl.memory P) = 1 then
    if N ≠ 0 ∧ elemStatus (bl.memory N) = 1 then
      if spanFits bl (nP + nC + nN) then
        mergePCN bl P C N (deallocNN bl N) (deallocNPF bl N) (deallocNNF bl N)
          (deallocPPF bl P) (deallocPNF bl P)
      else if spanFits bl (nP + nC) then mergePC bl P C N
      else if spanFits bl (nC + nN) then
        mergeCN bl C N (deallocNN bl N) (deallocNPF bl N) (deallocNNF bl N)
      else standalone bl C
    else if spanFits bl (nP + nC) then mergePC bl P C N
    else standalone bl C
  else if N ≠ 0 ∧ elemStatus (bl.memory N) = 1 then
    if spanFits bl (nC + nN) then
      mergeCN bl C N (deallocNN bl N) (deallocNPF bl N) (deallocNNF bl N)
    else standalone bl C
  else standalone bl C

/-- A small concrete block used as a witness: a fresh 128-byte block with
alignment 4 from which 8 bytes were allocated (so the slot at position 1 is
allocated and the split remainder at position 5 is free). -/
def witnessBlockA : MemoryBlock := ((mkMemoryBlock 0 128 4).allocate 8).2

/-- `next_aligned_start` as claim C2 words it:
`ceil((freePosition + 1 + elements_needed) / element_alignment) * element_alignment`
(everything else as in the code). -/
def nextAlignedStartClaim (freePosition numElementsToBeUsed elementAlignment : Nat) : Nat :=
  (freePosition + 1 + numElementsToBeUsed + elementAlignment - 1) / elementAlignment
    * elementAlignment % U32

/-- `next_aligned_start` as the code actually computes it, rephrased: the
least multiple of `element_alignment` strictly greater than
`freePosition + 1 + elements_needed`. -/
def nextAlignedStartAmended (freePosition numElementsToBeUsed elementAlignment : Nat) : Nat :=
  ((freePosition + 1 + numElementsToBeUsed) / elementAlignment + 1) * elementAlignment % U32

/-- Clone of `allocateLoop` that follows claim C2's `ceil` formula for
`next_aligned_start`; identical to the code in every other respect, for
comparison against the real `allocateLoop`. -/
def allocateLoopC2spec (size : Nat) : Nat → MemoryBlock → Nat → Except String (Option Nat) × MemoryBlock
  | 0, bl, _ => (.ok none, bl)
  | fuel + 1, bl, freePosition =>
    if freePosition = 0 then (.ok none, bl)
    else
      let slot := bl.memory freePosition
      if elemStatus slot ≠ 1 then (.error "Warning: allocated slot found in freeList", bl)
      else
        let previousFreePosition := bl.memory (freePosition + 1)
        let nextFreePosition := bl.memory (freePosition + 2)
        let slotSpace := elemNext slot
        let nextPosition := (freePosition + slotSpace) % U32
        let slotSize := sizeofElement * modSub slotSpace 1 U64 % U64
        if size ≤ slotSize then
          let numElementsToBeUsed := numElementsToBeUsedCalc size
          let nextAlignedStart :=
            nextAlignedStartClaim freePosition numElementsToBeUsed bl.elementAlignment
          let minimumAlignedEnd := (nextAlignedStart + 3) % U32
          if minimumAlignedEnd < nextPosition then
            let newSlotPosition := modSub nextAlignedStart 1 U32
            let newNext := modSub newSlotPosition freePosition E15
            let mem1 := wr bl.memory freePosition (setNext slot newNext)
            let newSlotNext := modSub nextPosition newSlotPosition E15
            let mem2 := wr mem1 newSlotPosition (mkElem newNext newSlotNext 1)
            let mem3 := wr mem2 (newSlotPosition + 1) previousFreePosition
            let mem4 := wr mem3 (newSlotPosition + 2) nextFreePosition
            let mem5 := if previousFreePosition ≠ 0 then
                wr mem4 (previousFreePosition + 2) newSlotPosition
              else mem4
            let mem6 := if nextFreePosition ≠ 0 then
                wr mem5 (nextFreePosition + 1) newSlotPosition
              else mem5
            let mem7 := if nextPosition < bl.capacity then
                wr mem6 nextPosition (setPrev (rd mem6 nextPosition) newSlotNext)
              else mem6
            let head1 := if freePosition = bl.head then newSlotPosition else bl.head
            let mem8 := wr mem7 freePosition (setStatus (rd mem7 freePosition) 0)
            (.ok (some (bl.base + sizeofElement * (freePosition + 1))),
              { bl with memory := mem8, head := head1 })
          else
            let mem5 := if previousFreePosition ≠ 0 then
                wr bl.memory (previousFreePosition + 2) nextFreePosition
              else bl.memory
            let mem6 := if nextFreePosition ≠ 0 then
                wr mem5 (nextFreePosition + 1) previousFreePosition
              else mem5
            let head1 := if freePosition = bl.head then nextFreePosition else bl.head
            let mem8 := wr mem6 freePosition (setStatus (rd mem6 freePosition) 0)
            (.ok (some (bl.base + sizeofElement * (freePosition + 1))),
              { bl with memory := mem8, head := head1, count := bl.count - 1 })
        else
          allocateLoopC2spec size fuel bl nextFreePosition

/-- `MemoryBlock::allocate` as claim C2 describes it (the `ceil` formula). -/
def MemoryBlock.allocateC2spec (bl : MemoryBlock) (size : Nat) :
    Except String (Option Nat) × MemoryBlock :=
  if size > bl.maximumAllocationSize then (.ok none, bl)
  else if bl.count = 0 then (.ok none, bl)
  else allocateLoopC2spec size (bl.numElements + 1) bl bl.head

/-- Clone of `allocateLoop` with the amended `next_aligned_start` formula
(least multiple of `element_alignment` strictly greater than
`freePosition + 1 + elements_needed`). -/
def allocateLoopC2amended (size : Nat) : Nat → MemoryBlock → Nat → Except String (Option Nat) × MemoryBlock
  | 0, bl, _ => (.ok none, bl)
  | fuel + 1, bl, freePosition =>
    if freePosition = 0 then (.ok none, bl)
    else
      let slot := bl.memory freePosition
      if elemStatus slot ≠ 1 then (.error "Warning: allocated slot found in freeList", bl)
      else
        let previousFreePosition := bl.memory (freePosition + 1)
        let nextFreePosition := bl.memory (freePosition + 2)
        let slotSpace := elemNext slot
        let nextPosition := (freePosition + slotSpace) % U32
        let slotSize := sizeofElement * modSub slotSpace 1 U64 % U64
        if size ≤ slotSize then
          let numElementsToBeUsed := numElementsToBeUsedCalc size
          let nextAlignedStart :=
            nextAlignedStartAmended freePosition numElementsToBeUsed bl.elementAlignment
          let minimumAlignedEnd := (nextAlignedStart + 3) % U32
          if minimumAlignedEnd < nextPosition then
            let newSlotPosition := modSub nextAlignedStart 1 U32
            let newNext := modSub newSlotPosition freePosition E15
            let mem1 := wr bl.memory freePosition (setNext slot newNext)
            let newSlotNext := modSub nextPosition newSlotPosition E15
            let mem2 := wr mem1 newSlotPosition (mkElem newNext newSlotNext 1)
            let mem3 := wr mem2 (newSlotPosition + 1) previousFreePosition
            let mem4 := wr mem3 (newSlotPosition + 2) nextFreePosition
            let mem5 := if previousFreePosition ≠ 0 then
                wr mem4 (previousFreePosition + 2) newSlotPosition
              else mem4
            let mem6 := if nextFreePosition ≠ 0 then
                wr mem5 (nextFreePosition + 1) newSlotPosition
              else mem5
            let mem7 := if nextPosition < bl.capacity then
                wr mem6 nextPosition (setPrev (rd mem6 nextPosition) newSlotNext)
              else mem6
            let head1 := if freePosition = bl.head then newSlotPosition else bl.head
            let mem8 := wr mem7 freePosition (setStatus (rd mem7 freePosition) 0)
            (.ok (some (bl.base + sizeofElement * (freePosition + 1))),
              { bl with memory := mem8, head := head1 })
          else
            let mem5 := if previousFreePosition ≠ 0 then
                wr bl.memory (previousFreePosition + 2) nextFreePosition
              else bl.memory
            let mem6 := if nextFreePosition ≠ 0 then
                wr mem5 (nextFreePosition + 1) previousFreePosition
              else mem5
            let head1 := if freePosition = bl.head then nextFreePosition else bl.head
            let mem8 := wr mem6 freePosition (setStatus (rd mem6 freePosition) 0)
            (.ok (some (bl.base + sizeofElement * (freePosition + 1))),
              { bl with memory := mem8, head := head1, count := bl.count - 1 })
        else
          allocateLoopC2amended size fuel bl nextFreePosition

/-- `MemoryBlock::allocate` with the amended `next_aligned_start` formula. -/
def MemoryBlock.allocateC2amended (bl : MemoryBlock) (size : Nat) :
    Except String (Option Nat) × MemoryBlock :=
  if size > bl.maximumAllocationSize then (.ok none, bl)
  else if bl.count = 0 then (.ok none, bl)
  else allocateLoopC2amended size (bl.numElements + 1) bl bl.head

/-- `(a + k - 1) / k * k`: round `a` up to a multiple of `k`, modelling the
address returned by the aligned `operator new` from the bump pointer. -/
def alignUp (a k : Nat) : Nat := (a + k - 1) / k * k

/-- State of one `IntrusiveAllocator::MemoryBlocks` pool (lines 1144-1151).
Blocks are referenced by their index in the facade's block store. -/
structure MBlocksState where
  name : String
  alignment : Nat
  blockSize : Nat
  maximumAllocationSize : Nat
  memoryBlockWithSpace : Option Nat
  memoryBlocks : List Nat

/-- `IntrusiveAllocator::MemoryBlocks::MemoryBlocks(parent, name, blockSize,
alignment)` (lines 1144-1151). -/
def mkMBlocks (name : String) (blockSize alignment : Nat) : MBlocksState :=
  { name := name
    alignment := alignment
    blockSize := blockSize
    maximumAllocationSize := computeMaxiumAllocationSize blockSize alignment
    memoryBlockWithSpace := none
    memoryBlocks := [] }

/-- State of the `IntrusiveAllocator` facade.  `blockStore` owns every
constructed `MemoryBlock` (identified by index); `blockMap` is the facade's
`memoryBlocks` reverse-lookup map, kept sorted ascending by block base
address; `nextAddr` is the model of the system allocator (each `operator
new` returns the bump pointer rounded up to the requested alignment).  The
`nestedAllocator` of the C++ class is null in the default-constructed
facade and is modelled as absent. -/
structure IAState where
  default_alignment : Nat
  pools : List (Option MBlocksState)
  blockStore : List MemoryBlock
  blockMap : List (Nat × Nat)
  largeAllocations : List (Nat × Nat)
  nextAddr : Nat

/-- A placeholder block used as the (never reached) default of out-of-range
block-store lookups. -/
def emptyMemoryBlock : MemoryBlock :=
  { base := 0, alignment := 0, blockSize := 0, blockAlignment := 0,
    elementAlignment := 0, numElements := 0, capacity := 0,
    maximumAllocationSize := 0, memory := fun _ => 0, head := 0, count := 0 }

/-- Block-store lookup. -/
def storeGet (st : IAState) (id : Nat) : MemoryBlock := st.blockStore.getD id emptyMemoryBlock

/-- Block-store write-back. -/
def storeSet (st : IAState) (id : Nat) (bl : MemoryBlock) : IAState :=
  { st with blockStore := st.blockStore.set id bl }

/-- `IntrusiveAllocator::IntrusiveAllocator()` (lines 1217-1232): the four
affinity pools with their deployment parameters.  `startAddr` seeds the
model's system-allocator bump pointer. -/
def mkIntrusiveAllocator (startAddr : Nat) : IAState :=
  let Megabyte := 1024 * 1024
  let blockSize := 1 * Megabyte
  { default_alignment := 4
    pools := [some (mkMBlocks "ALLOCATOR_AFFINITY_OBJECTS" blockSize 4),
      some (mkMBlocks "ALLOCATOR_AFFINITY_DATA" (16 * blockSize) 4),
      some (mkMBlocks "ALLOCATOR_AFFINITY_NODES" blockSize 4),
      some (mkMBlocks "ALLOCATOR_AFFINITY_PHYSICS" blockSize 16)]
    blockStore := []
    blockMap := []
    largeAllocations := []
    nextAddr := startAddr }

/-- `vector::resize(n)` on the affinity vector: appended entries are null. -/
def growTo {α : Type} (xs : List (Option α)) (n : Nat) : List (Option α) :=
  xs ++ List.replicate (n - xs.length) none

/-- `std::map` insertion into the sorted reverse-lookup map. -/
def insertSorted : List (Nat × Nat) → Nat × Nat → List (Nat × Nat)
  | [], e => [e]
  | x :: xs, e => if e.1 < x.1 then e :: x :: xs else x :: insertSorted xs e

/-- The block-scan loop of `IntrusiveAllocator::MemoryBlocks::allocate`
(lines 1166-1173): try every block except `memoryBlockWithSpace`. -/
def tryBlocksLoop (size : Nat) :
    List MemoryBlock → List Nat → Option Nat → Except String (Option Nat × List MemoryBlock)
  | store, [], _ => .ok (none, store)
  | store, id :: rest, skip =>
    if some id = skip then tryBlocksLoop size store rest skip
    else
      match (store.getD id emptyMemoryBlock).allocate size with
      | (.error e, _) => .error e
      | (.ok (some p), bl') => .ok (some p, store.set id bl')
      | (.ok none, bl') => tryBlocksLoop size (store.set id bl') rest skip

/-- Tail of `IntrusiveAllocator::MemoryBlocks::allocate` (lines 1165-1191):
scan the other blocks, then create a new `MemoryBlock` of size
`max(size, blockSize)`, register it with the facade's reverse-lookup map,
adopt its `maximumAllocationSize` when it is the first block, cache it as
`memoryBlockWithSpace`, and allocate from it. -/
def mblocksAllocateRest (st : IAState) (aff : Nat) (mbs : MBlocksState) (size : Nat) :
    Except String (Option Nat × IAState) :=
  let new_blockSize := max size mbs.blockSize
  match tryBlocksLoop size st.blockStore mbs.memoryBlocks mbs.memoryBlockWithSpace with
  | .error e => .error e
  | .ok (some p, store') => .ok (some p, { st with blockStore := store' })
  | .ok (none, store') =>
    let st1 := { st with blockStore := store' }
    let alignment1 := max mbs.alignment sizeofElement
    let blockAlignment := max (max alignment1 16) 16
    let roundedSize := (new_blockSize + alignment1 - 1) / alignment1 * alignment1
    let base := alignUp st1.nextAddr blockAlignment
    let newBlock := mkMemoryBlock base new_blockSize mbs.alignment
    let newId := st1.blockStore.length
    let newMas := if mbs.memoryBlocks.isEmpty
      then newBlock.maximumAllocationSize else mbs.maximumAllocationSize
    let mbs1 : MBlocksState :=
      { mbs with
        maximumAllocationSize := newMas
        memoryBlockWithSpace := some newId
        memoryBlocks := mbs.memoryBlocks ++ [newId] }
    let st2 : IAState :=
      { st1 with
        blockStore := st1.blockStore ++ [newBlock]
        nextAddr := base + roundedSize
        blockMap := insertSorted st1.blockMap (base, newId)
        pools := st1.pools.set aff (some mbs1) }
    match newBlock.allocate size with
    | (.error e, _) => .error e
    | (.ok r, bl') => .ok (r, { st2 with blockStore := st2.blockStore.set newId bl' })

/-- `IntrusiveAllocator::MemoryBlocks::allocate(size)` (lines 1157-1192). -/
def mblocksAllocate (st : IAState) (aff : Nat) (mbs : MBlocksState) (size : Nat) :
    Except String (Option Nat × IAState) :=
  match mbs.memoryBlockWithSpace with
  | some id =>
    match (storeGet st id).allocate size with
    | (.error e, _) => .error e
    | (.ok (some p), bl') => .ok (some p, storeSet st id bl')
    | (.ok none, bl') => mblocksAllocateRest (storeSet st id bl') aff mbs size
  | none => mblocksAllocateRest st aff mbs size

/-- A large allocation via the system allocator, recorded in
`largeAllocations` when non-null (lines 1292-1294 / 1298-1300). -/
def largeAlloc (st : IAState) (align size : Nat) : Except String (Option Nat × IAState) :=
  let base := alignUp st.nextAddr align
  let la := if base ≠ 0 then (base, size) :: st.largeAllocations else st.largeAllocations
  .ok (some base, { st with nextAddr := base + size, largeAllocations := la })

/-- `IntrusiveAllocator::allocate(size, allocatorAffinity)` (lines
1268-1302).  The out-of-bounds vector access that the C++ performs when
`allocatorAffinity == allocatorMemoryBlocks.size()` (the `>` guard does not
grow the vector then) is modelled as an explicit error value. -/
def IntrusiveAllocator.allocate (st : IAState) (size aff : Nat) :
    Except String (Option Nat × IAState) :=
  let st := if aff > st.pools.length then
      let pools1 := (growTo st.pools (aff + 1)).set aff
        (some (mkMBlocks "MemoryBlockAffinity" (1024 * 1024) st.default_alignment))
      { st with pools := pools1 }
    else st
  match st.pools.get? aff with
  | none => .error "allocatorMemoryBlocks index out of bounds"
  | some none => largeAlloc st st.default_alignment size
  | some (some blocks) =>
    if size ≤ blocks.maximumAllocationSize then
      match mblocksAllocate st aff blocks size with
      | .error e => .error e
      | .ok (some p, st') => .ok (some p, st')
      | .ok (none, st') => largeAlloc st' blocks.alignment size
    else largeAlloc st blocks.alignment size

/-- The `upper_bound`-and-step-back lookup of `IntrusiveAllocator::deallocate`
(lines 1310-1338): the candidate block is the one with the greatest base
`≤ ptr` when one exists, else the first block. -/
def lastLE : List (Nat × Nat) → Nat → Nat → Nat
  | [], _, acc => acc
  | e :: rest, ptr, acc => if e.1 ≤ ptr then lastLE rest ptr e.2 else acc

/-- Candidate block id for a pointer in the sorted reverse-lookup map. -/
def findCandidate (m : List (Nat × Nat)) (ptr : Nat) : Option Nat :=
  match m with
  | [] => none
  | e :: _ => if ptr < e.1 then some e.2 else some (lastLE m ptr e.2)

/-- Lookup in the `largeAllocations` map. -/
def lookupLarge : List (Nat × Nat) → Nat → Option Nat
  | [], _ => none
  | e :: rest, ptr => if e.1 = ptr then some e.2 else lookupLarge rest ptr

/-- Erasure from the `largeAllocations` map. -/
def eraseLarge : List (Nat × Nat) → Nat → List (Nat × Nat)
  | [], _ => []
  | e :: rest, ptr => if e.1 = ptr then rest else e :: eraseLarge rest ptr

/-- `IntrusiveAllocator::deallocate(ptr, size)` (lines 1304-1356).  The
nested allocator is absent in the modelled (default-constructed) facade. -/
def IntrusiveAllocator.deallocate (st : IAState) (ptr size : Nat) :
    Except String (Bool × IAState) :=
  if st.blockMap.isEmpty then .ok (false, st)
  else
    match findCandidate st.blockMap ptr with
    | none => .ok (false, st)
    | some id =>
      match (storeGet st id).deallocate ptr size with
      | (.error e, _) => .error e
      | (.ok true, bl') => .ok (true, storeSet st id bl')
      | (.ok false, bl') =>
        let st1 := storeSet st id bl'
        match lookupLarge st1.largeAllocations ptr with
        | some _ => .ok (true,
            { st1 with largeAllocations := eraseLarge st1.largeAllocations ptr })
        | none => .ok (false, st1)

/-- `IntrusiveAllocator::totalReservedSize()` (line 1371): a TODO stub in the
code, constantly 0. -/
def IntrusiveAllocator.totalReservedSize (_ : IAState) : Nat := 0

/-- Modelled from the spec: `OriginalBlockAllocator::MemoryBlocks::allocate`
(lines 361-395) bottoms out in `MemorySlots::reserve`, whose source file is
not part of this repository snapshot; §4.3 of the spec describes the pool's
allocate as returning a pointer or null.  For claim C4 only that outcome
matters, so a segregated pool is abstracted as an oracle from sizes to
optional pointers. -/
structure OMBsModel where
  tryAllocate : Nat → Option Nat

/-- The body of `OriginalBlockAllocator::allocate(size, allocatorAffinity)`
(lines 100-139), with its literal self-recursion at line 133 metered by
`fuel`: `none` means the recursion consumed all fuel without returning.
`newPool` stands for the `MemoryBlocks` the out-of-bounds branch creates. -/
def originalAllocateFuel (newPool : OMBsModel) :
    Nat → List (Option OMBsModel) → Nat → Nat → Option (Option Nat)
  | 0, _, _, _ => none
  | fuel + 1, pools, size, aff =>
    let pools := if aff > pools.length then (growTo pools (aff + 1)).set aff (some newPool)
      else pools
    match pools.getD aff none with
    | some mb =>
      match mb.tryAllocate size with
      | some ptr => some (some ptr)
      | none => originalAllocateFuel newPool fuel pools size aff
    | none => originalAllocateFuel newPool fuel pools size aff

/-- A segregated pool whose every allocation fails (all blocks full and the
new block's reserve failing), the second trigger of the fallback branch. -/
def nullPool : OMBsModel := ⟨fun _ => none⟩

/-- The fresh facade used by the concrete facade-level theorems (system
allocator bump pointer seeded at address 4096). -/
def ia0 : IAState := mkIntrusiveAllocator 4096

/-- The facade state after `allocate(2 MiB, OBJECTS)` on the fresh facade
(an oversize request recorded in `largeAllocations`; no block exists). -/
def c6state1 : IAState :=
  match IntrusiveAllocator.allocate ia0 2097152 0 with
  | .ok (_, s) => s
  | .error _ => ia0

/-- The element-count bound tested by the code and the byte bound of the spec
agree: `span ≤ 1 + m / sizeof(Element)` iff the payload `(span - 1) *
sizeof(Element)` is at most `m` bytes (for a nonempty span). -/
theorem span_le_maxSize_iff (m span : Nat) (h : 1 ≤ span) :
    span ≤ 1 + m / sizeofElement ↔ (span - 1) * sizeofElement ≤ m := by
  show span ≤ 1 + m / 4 ↔ (span - 1) * 4 ≤ m
  rw [show (span ≤ 1 + m / 4 ↔ span - 1 ≤ m / 4) from by omega,
    Nat.le_div_iff_mul_le (by norm_num)]

/-- C1: on a successful `deallocate` of an allocated slot `C`, the block is
transformed exactly per the claimed merge policy: a three-way merge of `P`,
`C`, `N` into `P` iff both neighbours are free and the combined span fits
within `maximum_allocation_size`; otherwise `P+C` iff free and fits;
otherwise `C+N` iff free and fits; otherwise a standalone insert of `C`
(and the two-neighbour / no-neighbour rows of the table likewise). -/
theorem deallocate_follows_claimMergePolicy (bl : MemoryBlock) (ptr size : Nat)
    (hw : bl.within ptr = true)
    (hnext : elemNext (bl.memory (deallocIndexC bl ptr)) ≠ 0)
    (hstatus : elemStatus (bl.memory (deallocIndexC bl ptr)) = 0)
    (hPstat : elemStatus (bl.memory (deallocP bl (deallocIndexC bl ptr))) ≤ 1)
    (hNstat : elemStatus (bl.memory (deallocN bl (deallocIndexC bl ptr))) ≤ 1) :
    bl.deallocate ptr size = (.ok true, claimMergePolicy bl (deallocIndexC bl ptr)) := by
  set C := deallocIndexC bl ptr with hC
  have h1 : 1 ≤ elemNext (bl.memory C) := Nat.one_le_iff_ne_zero.mpr hnext
  have hPiff : (deallocP bl C ≠ 0 ∧ elemStatus (bl.memory (deallocP bl C)) ≠ 0)
      ↔ (deallocP bl C ≠ 0 ∧ elemStatus (bl.memory (deallocP bl C)) = 1) := by
    omega
  have hNiff : (deallocN bl C ≠ 0 ∧ elemStatus (bl.memory (deallocN bl C)) ≠ 0)
      ↔ (deallocN bl C ≠ 0 ∧ elemStatus (bl.memory (deallocN bl C)) = 1) := by
    omega
  have hfit3 := span_le_maxSize_iff bl.maximumAllocationSize
    (elemNext (bl.memory (deallocP bl C)) + elemNext (bl.memory C)
      + elemNext (bl.memory (deallocN bl C))) (by omega)
  have hfitPC := span_le_maxSize_iff bl.maximumAllocationSize
    (elemNext (bl.memory (deallocP bl C)) + elemNext (bl.memory C)) (by omega)
  have hfitCN := span_le_maxSize_iff bl.maximumAllocationSize
    (elemNext (bl.memory C) + elemNext (bl.memory (deallocN bl C))) (by omega)
  have hfit3' : (elemNext (bl.memory (deallocP bl C)) + elemNext (bl.memory C)
        + elemNext (bl.memory (deallocN bl C)) ≤ 1 + bl.maximumAllocationSize / sizeofElement)
      ↔ spanFits bl (elemNext (bl.memory (deallocP bl C)) + elemNext (bl.memory C)
        + elemNext (bl.memory (deallocN bl C))) := hfit3
  have hfitPC' : (elemNext (bl.memory (deallocP bl C)) + elemNext (bl.memory C)
        ≤ 1 + bl.maximumAllocationSize / sizeofElement)
      ↔ spanFits bl (elemNext (bl.memory (deallocP bl C)) + elemNext (bl.memory C)) := hfitPC
  have hfitCN' : (elemNext (bl.memory C) + elemNext (bl.memory (deallocN bl C))
        ≤ 1 + bl.maximumAllocationSize / sizeofElement)
      ↔ spanFits bl (elemNext (bl.memory C) + elemNext (bl.memory (deallocN bl C))) := hfitCN
  unfold MemoryBlock.deallocate claimMergePolicy
  rw [← hC]
  rw [if_pos hw, if_neg (by simpa using hnext)]
  rw [if_neg (by simp [hstatus])]
  refine congrArg (Prod.mk (Except.ok true)) ?_
  refine if_congr hPiff
    (if_congr hNiff
      (if_congr hfit3' rfl (if_congr hfitPC' rfl (if_congr hfitCN' rfl rfl)))
      (if_congr hfitPC' rfl rfl))
    (if_congr hNiff (if_congr hfitCN' rfl rfl) rfl)

/-- Witness for C1: the merge-policy theorem applied to a concrete block and
pointer (here the `C+N` merge row fires). -/
theorem deallocate_follows_claimMergePolicy_witness :
    witnessBlockA.within 8 = true
    ∧ elemNext (witnessBlockA.memory (deallocIndexC witnessBlockA 8)) ≠ 0
    ∧ elemStatus (witnessBlockA.memory (deallocIndexC witnessBlockA 8)) = 0
    ∧ elemStatus (witnessBlockA.memory (deallocP witnessBlockA (deallocIndexC witnessBlockA 8))) ≤ 1
    ∧ elemStatus (witnessBlockA.memory (deallocN witnessBlockA (deallocIndexC witnessBlockA 8))) ≤ 1
    ∧ witnessBlockA.deallocate 8 8
      = (.ok true, claimMergePolicy witnessBlockA (deallocIndexC witnessBlockA 8)) :=
  ⟨by decide, by decide, by decide, by decide, by decide,
    deallocate_follows_claimMergePolicy witnessBlockA 8 8 (by decide) (by decide)
      (by decide) (by decide) (by decide)⟩

/-- C5: `MemoryBlock::allocate` returns null, leaving the block's control
records untouched, whenever the size exceeds `maximumAllocationSize`, and
whenever the free list has `count == 0` (the constructor creates a single
`FreeList`). -/
theorem allocate_fails_oversize_or_no_free (bl : MemoryBlock) (size : Nat) :
    (size > bl.maximumAllocationSize → bl.allocate size = (.ok none, bl))
    ∧ (bl.count = 0 → bl.allocate size = (.ok none, bl)) := by
  constructor
  · intro h
    unfold MemoryBlock.allocate
    rw [if_pos h]
  · intro h
    simp [MemoryBlock.allocate, h]

/-- Witness for C5: both failure branches evaluated on concrete fresh blocks
(a 128-byte block has `maximumAllocationSize = 124`; a 4-byte block carves no
slots, so its free list has `count = 0`). -/
theorem allocate_fails_oversize_or_no_free_witness :
    (125 > (mkMemoryBlock 0 128 4).maximumAllocationSize
      ∧ (mkMemoryBlock 0 128 4).allocate 125 = (.ok none, mkMemoryBlock 0 128 4))
    ∧ ((mkMemoryBlock 0 4 4).count = 0
      ∧ (mkMemoryBlock 0 4 4).allocate 0 = (.ok none, mkMemoryBlock 0 4 4)) :=
  ⟨⟨by decide, (allocate_fails_oversize_or_no_free (mkMemoryBlock 0 128 4) 125).1 (by decide)⟩,
   ⟨by decide, (allocate_fails_oversize_or_no_free (mkMemoryBlock 0 4 4) 0).2 (by decide)⟩⟩

/-- C9: deallocating a pointer inside the block whose slot header is already
marked free (`status == 1`) throws instead of returning, with the block's
control records unmodified at the moment of the throw. -/
theorem deallocate_double_free_throws (bl : MemoryBlock) (ptr size : Nat)
    (hw : bl.within ptr = true)
    (hfree : elemStatus (bl.memory (deallocIndexC bl ptr)) = 1) :
    ∃ e, bl.deallocate ptr size = (.error e, bl) := by
  unfold MemoryBlock.deallocate
  rw [if_pos hw]
  by_cases h0 : elemNext (bl.memory (deallocIndexC bl ptr)) = 0
  · exact ⟨"slot.ext == 0", by rw [if_pos h0]⟩
  · refine ⟨"Attempt to deallocate already available slot", ?_⟩
    rw [if_neg h0, if_pos (by simp [hfree])]

/-- Witness for C9: double free on a fresh block (position 1 is carved free,
so deallocating its payload pointer `base + 8` throws). -/
theorem deallocate_double_free_throws_witness :
    (mkMemoryBlock 0 128 4).within 8 = true
    ∧ elemStatus ((mkMemoryBlock 0 128 4).memory
        (deallocIndexC (mkMemoryBlock 0 128 4) 8)) = 1
    ∧ ∃ e, (mkMemoryBlock 0 128 4).deallocate 8 16 = (.error e, mkMemoryBlock 0 128 4) :=
  ⟨by decide, by decide,
    deallocate_double_free_throws (mkMemoryBlock 0 128 4) 8 16 (by decide) (by decide)⟩

/-- C10: `MemoryBlock::deallocate` ignores its `size` argument entirely: the
returned boolean (or thrown error) and the resulting control-record state are
identical for any two sizes. -/
theorem deallocate_ignores_size (bl : MemoryBlock) (ptr s1 s2 : Nat) :
    bl.deallocate ptr s1 = bl.deallocate ptr s2 := rfl

/-- The code's `nextAlignedStart` expression agrees everywhere with the
amended formula. -/
theorem nextAlignedStartCalc_eq_amended (fp needed ea : Nat) :
    nextAlignedStartCalc fp needed ea = nextAlignedStartAmended fp needed ea := by
  unfold nextAlignedStartCalc nextAlignedStartAmended
  rcases Nat.eq_zero_or_pos ea with h | h
  · simp [h]
  · rw [Nat.add_div_right _ h]

/-- The allocate walk agrees everywhere with its amended-formula clone. -/
theorem allocateLoop_eq_amended (size : Nat) :
    ∀ fuel bl fp, allocateLoop size fuel bl fp = allocateLoopC2amended size fuel bl fp := by
  intro fuel
  induction fuel with
  | zero => intro bl fp; rfl
  | succ n ih =>
    intro bl fp
    unfold allocateLoop allocateLoopC2amended
    simp only [nextAlignedStartCalc_eq_amended, ih]

/-- C2 (corrected): `allocate` computes `next_aligned_start` as the least
multiple of `element_alignment` strictly greater than
`freePosition + 1 + elements_needed` (not the `ceil` of the claim, which
differs exactly when `element_alignment` divides that sum), with
`elements_needed = max(ceil(size / sizeof(Element)), 3)` and the split
condition `next_aligned_start + 3 < nextPosition` as claimed: the code's
allocate coincides with the amended-formula clone, and the code's
`nextAlignedStart` expression is that least strictly-greater multiple. -/
theorem allocate_nextAlignedStart_amended (bl : MemoryBlock) (size : Nat) :
    bl.allocate size = bl.allocateC2amended size
    ∧ ∀ fp needed ea, 0 < ea → fp + 1 + needed + ea < U32 →
        (ea ∣ nextAlignedStartCalc fp needed ea
          ∧ fp + 1 + needed < nextAlignedStartCalc fp needed ea
          ∧ ∀ m, ea ∣ m → fp + 1 + needed < m → nextAlignedStartCalc fp needed ea ≤ m) := by
  constructor
  · unfold MemoryBlock.allocate MemoryBlock.allocateC2amended
    simp only [allocateLoop_eq_amended]
  · intro fp needed ea hea hlt
    have hx : (fp + 1 + needed + ea) / ea * ea ≤ fp + 1 + needed + ea :=
      Nat.div_mul_le_self _ _
    have hmod : nextAlignedStartCalc fp needed ea = (fp + 1 + needed + ea) / ea * ea := by
      unfold nextAlignedStartCalc
      exact Nat.mod_eq_of_lt (lt_of_le_of_lt hx hlt)
    have hdivright : (fp + 1 + needed + ea) / ea = (fp + 1 + needed) / ea + 1 :=
      Nat.add_div_right _ hea
    refine ⟨?_, ?_, ?_⟩
    · rw [hmod]; exact Dvd.intro_left _ rfl
    · rw [hmod, hdivright]
      have h2 : fp + 1 + needed < ea * ((fp + 1 + needed) / ea) + ea := by
        conv_lhs => rw [← Nat.div_add_mod (fp + 1 + needed) ea]
        exact Nat.add_lt_add_left (Nat.mod_lt _ hea) _
      calc fp + 1 + needed < ea * ((fp + 1 + needed) / ea) + ea := h2
        _ = ((fp + 1 + needed) / ea + 1) * ea := by ring
    · intro m hdvd hgt
      rw [hmod, hdivright]
      obtain ⟨k, rfl⟩ := hdvd
      have hk : (fp + 1 + needed) / ea < k := by
        rw [Nat.div_lt_iff_lt_mul hea]
        calc fp + 1 + needed < ea * k := hgt
          _ = k * ea := by ring
      calc ((fp + 1 + needed) / ea + 1) * ea ≤ k * ea := by
            exact Nat.mul_le_mul_right _ hk
        _ = ea * k := by ring

/-- Witness for C2's amended theorem at concrete inputs. -/
theorem allocate_nextAlignedStart_amended_witness :
    (mkMemoryBlock 0 128 4).allocate 8 = (mkMemoryBlock 0 128 4).allocateC2amended 8
    ∧ (0 < 2 ∧ 1 + 1 + 3 + 2 < U32)
    ∧ (2 ∣ nextAlignedStartCalc 1 3 2
      ∧ 1 + 1 + 3 < nextAlignedStartCalc 1 3 2
      ∧ ∀ m, 2 ∣ m → 1 + 1 + 3 < m → nextAlignedStartCalc 1 3 2 ≤ m) :=
  ⟨(allocate_nextAlignedStart_amended (mkMemoryBlock 0 128 4) 8).1,
    ⟨by decide, by decide⟩,
    (allocate_nextAlignedStart_amended (mkMemoryBlock 0 128 4) 8).2 1 3 2
      (by decide) (by decide)⟩

/-- Counterexample to C2 as stated: on a fresh 128-byte block with alignment
4 (`element_alignment = 1`), allocating 8 bytes makes the code split at
position 5 (new free-list head 5), while the claim's `ceil` formula would
split at position 4 — the two disagree whenever `element_alignment` divides
`freePosition + 1 + elements_needed`. -/
theorem allocate_nextAlignedStart_counterexample :
    ((mkMemoryBlock 0 128 4).allocate 8).2.head = 5
    ∧ ((mkMemoryBlock 0 128 4).allocateC2spec 8).2.head = 4
    ∧ nextAlignedStartCalc 1 3 1 = 6
    ∧ nextAlignedStartClaim 1 3 1 = 5 := by
  refine ⟨?_, ?_, by decide, by decide⟩ <;> decide

theorem wr_eq (m : Mem) (i v : Nat) : wr m i v i = v := by simp [wr]

theorem wr_ne (m : Mem) (i v j : Nat) (h : j ≠ i) : wr m i v j = m j := by simp [wr, h]

theorem elemNext_mkElem (p n s : Nat) (h : n ≤ 32767) : elemNext (mkElem p n s) = n := by
  have hp : p % E15 < E15 := Nat.mod_lt _ (by norm_num [E15])
  have hs : s % 4 < 4 := Nat.mod_lt _ (by norm_num)
  simp only [elemNext, mkElem, E15] at *
  omega

theorem elemStatus_mkElem (p n s : Nat) (h : s ≤ 3) : elemStatus (mkElem p n s) = s := by
  have hp : p % E15 < E15 := Nat.mod_lt _ (by norm_num [E15])
  have hn : n % E15 < E15 := Nat.mod_lt _ (by norm_num [E15])
  simp only [elemStatus, mkElem, E15] at *
  omega

theorem elemPrev_mkElem (p n s : Nat) (h : p ≤ 32767) : elemPrev (mkElem p n s) = p := by
  simp only [elemPrev, mkElem, E15] at *
  omega

theorem carveLoop_at_end (ea cap : Nat) (fuel : Nat) (mem : Mem) (pp pos cnt : Nat)
    (h : ¬ pos < cap) : carveLoop ea cap fuel mem pp pos cnt = (mem, cnt) := by
  cases fuel with
  | zero => rfl
  | succ n => simp [carveLoop, h]

theorem slotWalkAux_at_end (mem : Mem) (cap g pos : Nat) (h : ¬ pos < cap) :
    slotWalkAux mem cap g pos = ([], pos) := by
  cases g with
  | zero => rfl
  | succ n => simp [slotWalkAux, h]

theorem carveLoop_spec (ea cap : Nat) (hea0 : 0 < ea) (hea : ea ≤ 32767) (hcap : cap < U32) :
    ∀ fuel mem prevPos pos count,
      pos < cap → cap ≤ pos + fuel → 1 ≤ pos → (pos + 1) % ea = 0 →
      ∃ ps : List Nat,
        (∀ q, q < pos → (carveLoop ea cap fuel mem prevPos pos count).1 q = mem q)
        ∧ (∀ g, cap ≤ pos + g →
            slotWalkAux (carveLoop ea cap fuel mem prevPos pos count).1 cap g pos = (ps, cap))
        ∧ (carveLoop ea cap fuel mem prevPos pos count).2 = count + ps.length
        ∧ (∀ g, cap ≤ pos + g →
            freeChainAux (carveLoop ea cap fuel mem prevPos pos count).1 g pos = ps)
        ∧ (∀ p ∈ ps, elemStatus ((carveLoop ea cap fuel mem prevPos pos count).1 p) = 1
            ∧ 1 ≤ elemNext ((carveLoop ea cap fuel mem prevPos pos count).1 p)
            ∧ elemNext ((carveLoop ea cap fuel mem prevPos pos count).1 p) ≤ 32767
            ∧ (p + 1) % ea = 0) := by
  intro fuel
  induction fuel with
  | zero =>
    intro mem pp pos cnt hlt hfuel _ _
    exact absurd hfuel (by omega)
  | succ n ih =>
    intro mem pp pos cnt hlt hfuel h1 halign
    -- one unfolding of the loop
    set alignedStart := (pos + 32768) / ea * ea with hAS
    set nextPos := min (alignedStart - 1) cap with hNP
    set hdr := mkElem (if pp = 0 then 0 else pos - pp) (nextPos - pos) 1 with hhdr
    set mem3 := wr (wr (wr mem pos hdr) (pos + 1) (pp % U32)) (pos + 2)
      ((if nextPos < cap then nextPos else 0) % U32) with hmem3
    have hstep : carveLoop ea cap (n + 1) mem pp pos cnt
        = carveLoop ea cap n mem3 pos nextPos (cnt + 1) := by
      rw [carveLoop, if_pos hlt]
    -- arithmetic facts about alignedStart
    have hASlo : pos + 32768 ≤ alignedStart + ea - 1 := by
      have hdm := Nat.div_add_mod (pos + 32768) ea
      have hmod := Nat.mod_lt (pos + 32768) hea0
      have hc : alignedStart = ea * ((pos + 32768) / ea) := by rw [hAS]; ring
      generalize ea * ((pos + 32768) / ea) = A at hdm hc
      omega
    have hAShi : alignedStart ≤ pos + 32768 := Nat.div_mul_le_self _ _
    have hA2 : pos + 2 ≤ alignedStart := by omega
    obtain ⟨k, hk⟩ := Nat.dvd_of_mod_eq_zero halign
    have hkea : k * ea = pos + 1 := by rw [Nat.mul_comm]; exact hk.symm
    have hkA : k + 1 ≤ (pos + 32768) / ea := by
      rcases Nat.lt_or_ge k ((pos + 32768) / ea) with h | h
      · omega
      · exfalso
        have h1 : alignedStart ≤ pos + 1 := by
          rw [hAS]
          calc (pos + 32768) / ea * ea ≤ k * ea := Nat.mul_le_mul_right ea h
            _ = pos + 1 := hkea
        omega
    have hgap0 : pos + 1 + ea ≤ alignedStart := by
      have h1 : (k + 1) * ea ≤ alignedStart := by
        rw [hAS]
        exact Nat.mul_le_mul_right ea hkA
      have h2 : (k + 1) * ea = pos + 1 + ea := by
        calc (k + 1) * ea = k * ea + ea := by ring
          _ = pos + 1 + ea := by rw [hkea]
      rw [h2] at h1
      exact h1
    have hprog : pos < nextPos := by omega
    have hspan : nextPos - pos ≤ 32767 := by omega
    have hmem3pos : mem3 pos = hdr := by
      rw [hmem3, wr_ne _ _ _ _ (by omega), wr_ne _ _ _ _ (by omega), wr_eq]
    have hmem3lo : ∀ q, q < pos → mem3 q = mem q := by
      intro q hq
      rw [hmem3, wr_ne _ _ _ _ (by omega), wr_ne _ _ _ _ (by omega), wr_ne _ _ _ _ (by omega)]
    have hhdrnext : elemNext hdr = nextPos - pos := by
      rw [hhdr]; exact elemNext_mkElem _ _ _ hspan
    have hhdrstatus : elemStatus hdr = 1 := by
      rw [hhdr]; exact elemStatus_mkElem _ _ _ (by norm_num)
    rw [hstep]
    by_cases hnc : nextPos < cap
    · -- not the last slot: recurse
      have hnpa : nextPos = alignedStart - 1 := by omega
      have hgap : pos + 3 ≤ nextPos := by omega
      have halign2 : (nextPos + 1) % ea = 0 := by
        have hpos1 : nextPos + 1 = alignedStart := by omega
        rw [hpos1, hAS]
        exact Nat.mul_mod_left _ _
      obtain ⟨ps', IH1, IH2, IH3, IH4, IH5⟩ :=
        ih mem3 pos nextPos (cnt + 1) hnc (by omega) (by omega) halign2
      have hrpos : (carveLoop ea cap n mem3 pos nextPos (cnt + 1)).1 pos = hdr := by
        rw [IH1 pos hprog, hmem3pos]
      have hrpos2 : (carveLoop ea cap n mem3 pos nextPos (cnt + 1)).1 (pos + 2) = nextPos := by
        rw [IH1 (pos + 2) (by omega), hmem3, wr_eq, if_pos hnc, Nat.mod_eq_of_lt (by omega)]
      refine ⟨pos :: ps', ?_, ?_, ?_, ?_, ?_⟩
      · intro q hq
        rw [IH1 q (by omega), hmem3lo q hq]
      · intro g hg
        cases g with
        | zero => omega
        | succ g' =>
          rw [slotWalkAux, if_pos hlt, hrpos, hhdrnext, if_neg (by omega),
            show pos + (nextPos - pos) = nextPos from by omega, IH2 g' (by omega)]
      · rw [IH3]; simp; omega
      · intro g hg
        cases g with
        | zero => omega
        | succ g' =>
          rw [freeChainAux, if_neg (by omega)]
          rw [hrpos2, IH4 g' (by omega)]
      · intro p hp
        rcases List.mem_cons.mp hp with rfl | hp'
        · exact ⟨by rw [hrpos, hhdrstatus], by rw [hrpos, hhdrnext]; omega,
            by rw [hrpos, hhdrnext]; omega, halign⟩
        · exact IH5 p hp'
    · -- last slot: nextPos = cap, loop terminates next iteration
      have hnpc : nextPos = cap := by omega
      rw [carveLoop_at_end ea cap n mem3 pos nextPos (cnt + 1) (by omega)]
      have hm3p2 : mem3 (pos + 2) = 0 := by
        rw [hmem3, wr_eq, if_neg hnc]
        exact Nat.zero_mod _
      refine ⟨[pos], ?_, ?_, ?_, ?_, ?_⟩
      · intro q hq; exact hmem3lo q hq
      · intro g hg
        cases g with
        | zero => omega
        | succ g' =>
          show slotWalkAux mem3 cap (g' + 1) pos = ([pos], cap)
          rw [slotWalkAux, if_pos hlt, hmem3pos, hhdrnext, if_neg (by omega),
            show pos + (nextPos - pos) = nextPos from by omega, hnpc,
            slotWalkAux_at_end _ _ _ _ (by omega)]
      · simp
      · intro g hg
        cases g with
        | zero => omega
        | succ g' =>
          show freeChainAux mem3 (g' + 1) pos = [pos]
          rw [freeChainAux, if_neg (by omega), hm3p2]
          cases g' with
          | zero => rfl
          | succ g'' => rw [freeChainAux, if_pos rfl]
      · intro p hp
        rcases List.mem_singleton.mp hp with rfl
        refine ⟨?_, ?_, ?_, halign⟩
        · show elemStatus (mem3 p) = 1
          rw [hmem3pos, hhdrstatus]
        · show 1 ≤ elemNext (mem3 p)
          rw [hmem3pos, hhdrnext]; omega
        · show elemNext (mem3 p) ≤ 32767
          rw [hmem3pos, hhdrnext]; omega

theorem head_char (ea : Nat) (hea0 : 0 < ea) :
    1 ≤ (1 + ea) / ea * ea - 1 ∧ ((1 + ea) / ea * ea - 1 + 1) % ea = 0
    ∧ ∀ q, 1 ≤ q → (q + 1) % ea = 0 → (1 + ea) / ea * ea - 1 ≤ q := by
  rcases Nat.lt_or_ge ea 2 with h | h
  · have h1 : ea = 1 := by omega
    subst h1
    exact ⟨by norm_num, by norm_num, fun q hq _ => by norm_num; omega⟩
  · have hdiv : (1 + ea) / ea = 1 := Nat.div_eq_of_lt_le (by omega) (by omega)
    rw [hdiv, one_mul]
    refine ⟨by omega, ?_, ?_⟩
    · rw [show ea - 1 + 1 = ea from by omega, Nat.mod_self]
    · intro q h1 hq
      obtain ⟨k, hk⟩ := Nat.dvd_of_mod_eq_zero hq
      cases k with
      | zero => omega
      | succ k' =>
        have : ea ≤ ea * (k' + 1) := Nat.le_mul_of_pos_right ea (Nat.succ_pos k')
        omega

/-- C7: after `MemoryBlock` construction, the free list's head is the
smallest position `≥ 1` whose successor is a multiple of
`element_alignment`, `count` equals the number of free slots carved, and the
carved slots chain forward via their `next` offsets from head to exactly
`capacity`, every span within the u15 limit (and every slot free and at an
aligned position).  Hypotheses: `element_alignment ≤ 32767` or no slot is
carved at all (`capacity ≤ head`) — together all constructions on which the
C++ carving loop terminates, since for `element_alignment ≥ 32768` with
`head < capacity` it recomputes `aligned_start - 1 == position` forever —
and `capacity < 2^32` (the width of `Element::Index`). -/
theorem mkMemoryBlock_carve_spec (base bs al : Nat)
    (hea : (mkMemoryBlock base bs al).elementAlignment ≤ 32767
      ∨ (mkMemoryBlock base bs al).capacity ≤ (mkMemoryBlock base bs al).head)
    (hcap : (mkMemoryBlock base bs al).capacity < U32) :
    (1 ≤ (mkMemoryBlock base bs al).head
      ∧ ((mkMemoryBlock base bs al).head + 1) % (mkMemoryBlock base bs al).elementAlignment = 0
      ∧ ∀ q, 1 ≤ q → (q + 1) % (mkMemoryBlock base bs al).elementAlignment = 0 →
          (mkMemoryBlock base bs al).head ≤ q)
    ∧ ∃ ps : List Nat,
        slotWalkAux (mkMemoryBlock base bs al).memory (mkMemoryBlock base bs al).capacity
            ((mkMemoryBlock base bs al).capacity + 1) (mkMemoryBlock base bs al).head
          = (ps, if (mkMemoryBlock base bs al).head < (mkMemoryBlock base bs al).capacity
              then (mkMemoryBlock base bs al).capacity else (mkMemoryBlock base bs al).head)
        ∧ (mkMemoryBlock base bs al).count = ps.length
        ∧ ((mkMemoryBlock base bs al).head < (mkMemoryBlock base bs al).capacity →
            freeChainAux (mkMemoryBlock base bs al).memory
              ((mkMemoryBlock base bs al).numElements + 1) (mkMemoryBlock base bs al).head = ps)
        ∧ (∀ p ∈ ps, elemStatus ((mkMemoryBlock base bs al).memory p) = 1
            ∧ 1 ≤ elemNext ((mkMemoryBlock base bs al).memory p)
            ∧ elemNext ((mkMemoryBlock base bs al).memory p) ≤ 32767
            ∧ (p + 1) % (mkMemoryBlock base bs al).elementAlignment = 0) := by
  set al1 := max al sizeofElement with hal1
  set ea := al1 / sizeofElement with heaD
  set bs1 := (bs + al1 - 1) / al1 * al1 with hbs1
  set cap := bs1 / al1 with hcapD
  set nel := bs1 / sizeofElement with hnel
  set h0 := (1 + ea) / ea * ea - 1 with hh0
  set mem0 : Mem := wr (fun _ => 0) 0 0 with hmem0
  have hblea : (mkMemoryBlock base bs al).elementAlignment = ea := rfl
  have hblhead : (mkMemoryBlock base bs al).head = h0 := rfl
  have hblcap : (mkMemoryBlock base bs al).capacity = cap := rfl
  have hblnel : (mkMemoryBlock base bs al).numElements = nel := rfl
  have hblmem : (mkMemoryBlock base bs al).memory = (carveLoop ea cap cap mem0 0 h0 0).1 := rfl
  have hblcount : (mkMemoryBlock base bs al).count = (carveLoop ea cap cap mem0 0 h0 0).2 := rfl
  have hea0 : 0 < ea := by
    rw [heaD]
    have : sizeofElement ≤ al1 := le_max_right _ _
    exact Nat.one_le_div_iff (by norm_num [sizeofElement]) |>.mpr this
  have hnelcap : cap ≤ nel := by
    rw [hcapD, hnel]
    exact Nat.div_le_div_left (le_max_right _ _) (by norm_num [sizeofElement])
  rw [hblea, hblhead, hblcap, hblnel, hblmem, hblcount] at *
  obtain ⟨hhd1, hhd2, hhd3⟩ := head_char ea hea0
  refine ⟨⟨hhd1, hhd2, hhd3⟩, ?_⟩
  by_cases hlt : h0 < cap
  · have hea32 : ea ≤ 32767 := by
      rcases hea with h | h
      · exact h
      · have h' : cap ≤ h0 := h
        omega
    obtain ⟨ps, S1, S2, S3, S4, S5⟩ :=
      carveLoop_spec ea cap hea0 hea32 hcap cap mem0 0 h0 0 hlt (by omega) hhd1 hhd2
    refine ⟨ps, ?_, ?_, ?_, S5⟩
    · rw [if_pos hlt]
      exact S2 (cap + 1) (by omega)
    · rw [S3]; omega
    · intro _
      exact S4 (nel + 1) (by omega)
  · rw [carveLoop_at_end ea cap cap mem0 0 h0 0 hlt]
    refine ⟨[], ?_, rfl, fun h => absurd h hlt, by simp⟩
    rw [if_neg hlt]
    exact slotWalkAux_at_end _ _ _ _ hlt

/-- Witness for C7 at a concrete construction (256-byte block, alignment 8,
so `element_alignment = 2`, head = 1, one carved slot spanning to capacity). -/
theorem mkMemoryBlock_carve_spec_witness :
    (((mkMemoryBlock 0 256 8).elementAlignment ≤ 32767
        ∨ (mkMemoryBlock 0 256 8).capacity ≤ (mkMemoryBlock 0 256 8).head)
      ∧ (mkMemoryBlock 0 256 8).capacity < U32)
    ∧ ((1 ≤ (mkMemoryBlock 0 256 8).head
      ∧ ((mkMemoryBlock 0 256 8).head + 1) % (mkMemoryBlock 0 256 8).elementAlignment = 0
      ∧ ∀ q, 1 ≤ q → (q + 1) % (mkMemoryBlock 0 256 8).elementAlignment = 0 →
          (mkMemoryBlock 0 256 8).head ≤ q)
    ∧ ∃ ps : List Nat,
        slotWalkAux (mkMemoryBlock 0 256 8).memory (mkMemoryBlock 0 256 8).capacity
            ((mkMemoryBlock 0 256 8).capacity + 1) (mkMemoryBlock 0 256 8).head
          = (ps, if (mkMemoryBlock 0 256 8).head < (mkMemoryBlock 0 256 8).capacity
              then (mkMemoryBlock 0 256 8).capacity else (mkMemoryBlock 0 256 8).head)
        ∧ (mkMemoryBlock 0 256 8).count = ps.length
        ∧ ((mkMemoryBlock 0 256 8).head < (mkMemoryBlock 0 256 8).capacity →
            freeChainAux (mkMemoryBlock 0 256 8).memory
              ((mkMemoryBlock 0 256 8).numElements + 1) (mkMemoryBlock 0 256 8).head = ps)
        ∧ (∀ p ∈ ps, elemStatus ((mkMemoryBlock 0 256 8).memory p) = 1
            ∧ 1 ≤ elemNext ((mkMemoryBlock 0 256 8).memory p)
            ∧ elemNext ((mkMemoryBlock 0 256 8).memory p) ≤ 32767
            ∧ (p + 1) % (mkMemoryBlock 0 256 8).elementAlignment = 0)) :=
  ⟨⟨Or.inl (by decide), by decide⟩,
    mkMemoryBlock_carve_spec 0 256 8 (Or.inl (by decide)) (by decide)⟩

theorem elemStatus_le3 (w : Nat) : elemStatus w ≤ 3 := by
  have := Nat.mod_lt (w / (E15 * E15)) (show 0 < 4 by norm_num)
  simp only [elemStatus]
  omega

theorem elemStatus_setNext (w n : Nat) : elemStatus (setNext w n) = elemStatus w := by
  simp only [setNext]
  exact elemStatus_mkElem _ _ _ (elemStatus_le3 w)

theorem elemStatus_setPrev (w p : Nat) : elemStatus (setPrev w p) = elemStatus w := by
  simp only [setPrev]
  exact elemStatus_mkElem _ _ _ (elemStatus_le3 w)

theorem allocateLoop_some_mem (size : Nat) :
    ∀ fuel (bl : MemoryBlock) pos p bl',
      allocateLoop size fuel bl pos = (.ok (some p), bl') →
      ∃ fp ∈ freeChainAux bl.memory fuel pos, p = bl.base + sizeofElement * (fp + 1) := by
  intro fuel
  induction fuel with
  | zero =>
    intro bl pos p bl' h
    exact absurd (congrArg Prod.fst h) (by simp [allocateLoop])
  | succ n ih =>
    intro bl pos p bl' h
    rw [allocateLoop] at h
    by_cases h0 : pos = 0
    · rw [if_pos h0] at h
      exact absurd (congrArg Prod.fst h) (by simp)
    rw [if_neg h0] at h
    by_cases hs : elemStatus (bl.memory pos) ≠ 1
    · rw [if_pos hs] at h
      exact absurd (congrArg Prod.fst h) (by simp)
    rw [if_neg hs] at h
    simp only [] at h
    by_cases hsz : size ≤ sizeofElement * modSub (elemNext (bl.memory pos)) 1 U64 % U64
    · rw [if_pos hsz] at h
      rw [freeChainAux, if_neg h0]
      refine ⟨pos, List.mem_cons_self _ _, ?_⟩
      by_cases hsplit : (nextAlignedStartCalc pos (numElementsToBeUsedCalc size)
            bl.elementAlignment + 3) % U32 < (pos + elemNext (bl.memory pos)) % U32
      · rw [if_pos hsplit] at h
        have := congrArg Prod.fst h
        simp only [] at this
        exact (Option.some.inj (Except.ok.inj this)).symm
      · rw [if_neg hsplit] at h
        have := congrArg Prod.fst h
        simp only [] at this
        exact (Option.some.inj (Except.ok.inj this)).symm
    · rw [if_neg hsz] at h
      obtain ⟨fp, hmem, hp⟩ := ih bl (bl.memory (pos + 2)) p bl' h
      rw [freeChainAux, if_neg h0]
      exact ⟨fp, List.mem_cons_of_mem _ hmem, hp⟩

theorem elemStatus_setStatus (w s : Nat) (h : s ≤ 3) : elemStatus (setStatus w s) = s := by
  simp only [setStatus]
  exact elemStatus_mkElem _ _ _ h

theorem wr_status_ne (m : Mem) (i v q : Nat) (h : q ≠ i) :
    elemStatus (wr m i v q) = elemStatus (m q) := by rw [wr_ne _ _ _ _ h]

theorem wr_status_pres (m : Mem) (i v : Nat) (hv : elemStatus v = elemStatus (m i)) (q : Nat) :
    elemStatus (wr m i v q) = elemStatus (m q) := by
  by_cases hq : q = i
  · subst hq; rw [wr_eq, hv]
  · rw [wr_ne _ _ _ _ hq]

theorem mergePC_status (bl : MemoryBlock) (P C N q : Nat) :
    elemStatus ((mergePC bl P C N).memory q) = elemStatus (bl.memory q) := by
  unfold mergePC
  simp only [rd]
  by_cases hN : N ≠ 0
  · simp only [if_pos hN]
    rw [wr_status_pres _ _ _ (elemStatus_setPrev _ _) q,
      wr_status_pres _ _ _ (elemStatus_setNext _ _) q]
  · simp only [if_neg hN]
    rw [wr_status_pres _ _ _ (elemStatus_setNext _ _) q]

theorem mergePCN_status (bl : MemoryBlock) (P C N NN NPF NNF PPF PNF q : Nat)
    (hq1 : q ≠ P + 1) (hq2 : q ≠ P + 2) (hq3 : q ≠ NPF + 2) (hq4 : q ≠ NNF + 1) :
    elemStatus ((mergePCN bl P C N NN NPF NNF PPF PNF).memory q) = elemStatus (bl.memory q) := by
  unfold mergePCN
  simp only [rd]
  have hm2 : ∀ m : Mem,
      elemStatus ((if NN ≠ 0 then wr m NN (setPrev (m NN) (elemNext (m P))) else m) q)
        = elemStatus (m q) := by
    intro m
    by_cases hNN : NN ≠ 0
    · rw [if_pos hNN, wr_status_pres _ _ _ (elemStatus_setPrev _ _) q]
    · rw [if_neg hNN]
  by_cases hc1 : PNF = N
  · simp only [if_pos hc1]
    by_cases hNNF : NNF ≠ 0
    · simp only [if_pos hNNF]
      rw [wr_status_ne _ _ _ _ hq4, wr_status_ne _ _ _ _ hq2, hm2,
        wr_status_pres _ _ _ (elemStatus_setNext _ _) q]
    · simp only [if_neg hNNF]
      rw [wr_status_ne _ _ _ _ hq2, hm2,
        wr_status_pres _ _ _ (elemStatus_setNext _ _) q]
  · simp only [if_neg hc1]
    by_cases hc2 : PPF = N
    · simp only [if_pos hc2]
      by_cases hh : bl.head = N
      · simp only [if_pos hh]
        rw [wr_status_ne _ _ _ _ hq1, hm2,
          wr_status_pres _ _ _ (elemStatus_setNext _ _) q]
      · simp only [if_neg hh]
        by_cases hNPF : NPF ≠ 0
        · simp only [if_pos hNPF]
          rw [wr_status_ne _ _ _ _ hq3, wr_status_ne _ _ _ _ hq1, hm2,
            wr_status_pres _ _ _ (elemStatus_setNext _ _) q]
        · simp only [if_neg hNPF]
          rw [wr_status_ne _ _ _ _ hq1, hm2,
            wr_status_pres _ _ _ (elemStatus_setNext _ _) q]
    · simp only [if_neg hc2]
      by_cases hNPF : NPF ≠ 0
      · simp only [if_pos hNPF]
        by_cases hNNF : NNF ≠ 0
        · simp only [if_pos hNNF]
          rw [wr_status_ne _ _ _ _ hq4, wr_status_ne _ _ _ _ hq3, hm2,
            wr_status_pres _ _ _ (elemStatus_setNext _ _) q]
        · simp only [if_neg hNNF]
          rw [wr_status_ne _ _ _ _ hq3, hm2,
            wr_status_pres _ _ _ (elemStatus_setNext _ _) q]
      · simp only [if_neg hNPF]
        by_cases hNNF : NNF ≠ 0
        · simp only [if_pos hNNF]
          rw [wr_status_ne _ _ _ _ hq4, hm2,
            wr_status_pres _ _ _ (elemStatus_setNext _ _) q]
        · simp only [if_neg hNNF]
          rw [hm2, wr_status_pres _ _ _ (elemStatus_setNext _ _) q]

theorem mergeCN_status (bl : MemoryBlock) (C N NN NPF NNF q : Nat)
    (hq0 : q ≠ C) (hq1 : q ≠ C + 1) (hq2 : q ≠ C + 2) (hq3 : q ≠ NPF + 2) (hq4 : q ≠ NNF + 1) :
    elemStatus ((mergeCN bl C N NN NPF NNF).memory q) = elemStatus (bl.memory q) := by
  unfold mergeCN
  simp only [rd]
  have hm3 : ∀ m : Mem,
      elemStatus ((if NN ≠ 0 then wr m NN (setPrev (m NN) (elemNext (m C))) else m) q)
        = elemStatus (m q) := by
    intro m
    by_cases hNN : NN ≠ 0
    · rw [if_pos hNN, wr_status_pres _ _ _ (elemStatus_setPrev _ _) q]
    · rw [if_neg hNN]
  have hm4 : ∀ m : Mem, elemStatus ((if NPF ≠ 0 then wr m (NPF + 2) C else m) q)
      = elemStatus (m q) := by
    intro m
    by_cases hNPF : NPF ≠ 0
    · rw [if_pos hNPF, wr_status_ne _ _ _ _ hq3]
    · rw [if_neg hNPF]
  have hm5 : ∀ m : Mem, elemStatus ((if NNF ≠ 0 then wr m (NNF + 1) C else m) q)
      = elemStatus (m q) := by
    intro m
    by_cases hNNF : NNF ≠ 0
    · rw [if_pos hNNF, wr_status_ne _ _ _ _ hq4]
    · rw [if_neg hNNF]
  rw [wr_status_ne _ _ _ _ hq2, wr_status_ne _ _ _ _ hq1, hm5, hm4, hm3,
    wr_status_ne _ _ _ _ hq0, wr_status_ne _ _ _ _ hq0]

theorem mergeCN_status_at_C (bl : MemoryBlock) (C N NN NPF NNF : Nat)
    (hq3 : NPF + 2 ≠ C) (hq4 : NNF + 1 ≠ C) (hNN : NN ≠ C) :
    elemStatus ((mergeCN bl C N NN NPF NNF).memory C) = 1 := by
  unfold mergeCN
  simp only [rd]
  have hm3 : ∀ m : Mem,
      elemStatus ((if NN ≠ 0 then wr m NN (setPrev (m NN) (elemNext (m C))) else m) C)
        = elemStatus (m C) := by
    intro m
    by_cases hNN0 : NN ≠ 0
    · rw [if_pos hNN0, wr_status_ne _ _ _ _ (Ne.symm hNN)]
    · rw [if_neg hNN0]
  have hm4 : ∀ m : Mem, elemStatus ((if NPF ≠ 0 then wr m (NPF + 2) C else m) C)
      = elemStatus (m C) := by
    intro m
    by_cases hNPF : NPF ≠ 0
    · rw [if_pos hNPF, wr_status_ne _ _ _ _ (Ne.symm hq3)]
    · rw [if_neg hNPF]
  have hm5 : ∀ m : Mem, elemStatus ((if NNF ≠ 0 then wr m (NNF + 1) C else m) C)
      = elemStatus (m C) := by
    intro m
    by_cases hNNF : NNF ≠ 0
    · rw [if_pos hNNF, wr_status_ne _ _ _ _ (Ne.symm hq4)]
    · rw [if_neg hNNF]
  rw [wr_status_ne _ _ _ _ (by omega), wr_status_ne _ _ _ _ (by omega), hm5, hm4, hm3,
    wr_status_pres _ _ _ (elemStatus_setNext _ _) C, wr_eq]
  exact elemStatus_setStatus _ 1 (by norm_num)

theorem standalone_status (bl : MemoryBlock) (C q : Nat)
    (hq0 : q ≠ C) (hq1 : q ≠ C + 1) (hq2 : q ≠ C + 2) (hq3 : q ≠ bl.head + 1) :
    elemStatus ((standalone bl C).memory q) = elemStatus (bl.memory q) := by
  unfold standalone
  have hm4 : ∀ m : Mem, elemStatus ((if bl.head ≠ 0 then wr m (bl.head + 1) C else m) q)
      = elemStatus (m q) := by
    intro m
    by_cases hh : bl.head ≠ 0
    · rw [if_pos hh, wr_status_ne _ _ _ _ hq3]
    · rw [if_neg hh]
  rw [hm4, wr_status_ne _ _ _ _ hq2, wr_status_ne _ _ _ _ hq1, wr_status_ne _ _ _ _ hq0]

theorem standalone_status_at_C (bl : MemoryBlock) (C : Nat) (hq3 : bl.head + 1 ≠ C) :
    elemStatus ((standalone bl C).memory C) = 1 := by
  unfold standalone
  have hm4 : ∀ m : Mem, elemStatus ((if bl.head ≠ 0 then wr m (bl.head + 1) C else m) C)
      = elemStatus (m C) := by
    intro m
    by_cases hh : bl.head ≠ 0
    · rw [if_pos hh, wr_status_ne _ _ _ _ (Ne.symm hq3)]
    · rw [if_neg hh]
  rw [hm4, wr_status_ne _ _ _ _ (by omega), wr_status_ne _ _ _ _ (by omega), wr_eq]
  exact elemStatus_setStatus _ 1 (by norm_num)

theorem freeChainAux_zero (mem : Mem) (g : Nat) : freeChainAux mem g 0 = [] := by
  cases g <;> simp [freeChainAux]

theorem C8aux_carve_chain_aligned (base bs al : Nat)
    (hea : (mkMemoryBlock base bs al).elementAlignment ≤ 32767)
    (hcap : (mkMemoryBlock base bs al).capacity < U32) :
    ∀ p ∈ (mkMemoryBlock base bs al).freeChain,
      (p + 1) % (mkMemoryBlock base bs al).elementAlignment = 0 := by
  set al1 := max al sizeofElement with hal1
  set ea := al1 / sizeofElement with heaD
  set bs1 := (bs + al1 - 1) / al1 * al1 with hbs1
  set cap := bs1 / al1 with hcapD
  set nel := bs1 / sizeofElement with hnel
  set h0 := (1 + ea) / ea * ea - 1 with hh0
  set mem0 : Mem := wr (fun _ => 0) 0 0 with hmem0
  have hblea : (mkMemoryBlock base bs al).elementAlignment = ea := rfl
  have hblchain : (mkMemoryBlock base bs al).freeChain
      = freeChainAux (carveLoop ea cap cap mem0 0 h0 0).1 (nel + 1) h0 := rfl
  have hea0 : 0 < ea := by
    rw [heaD]
    have : sizeofElement ≤ al1 := le_max_right _ _
    exact Nat.one_le_div_iff (by norm_num [sizeofElement]) |>.mpr this
  have hnelcap : cap ≤ nel := by
    rw [hcapD, hnel]
    exact Nat.div_le_div_left (le_max_right _ _) (by norm_num [sizeofElement])
  rw [hblea] at *
  rw [hblchain]
  obtain ⟨hhd1, hhd2, _⟩ := head_char ea hea0
  by_cases hlt : h0 < cap
  · obtain ⟨ps, _, _, _, S4, S5⟩ :=
      carveLoop_spec ea cap hea0 hea hcap cap mem0 0 h0 0 hlt (by omega) hhd1 hhd2
    rw [S4 (nel + 1) (by omega)]
    intro p hp
    exact (S5 p hp).2.2.2
  · rw [carveLoop_at_end ea cap cap mem0 0 h0 0 hlt]
    have hstep : freeChainAux mem0 (nel + 1) h0 = h0 :: freeChainAux mem0 nel (mem0 (h0 + 2)) := by
      rw [freeChainAux, if_neg (by omega)]
    have hz : mem0 (h0 + 2) = 0 := by
      rw [hmem0]
      simp [wr]
    rw [hstep, hz, freeChainAux_zero]
    intro p hp
    rcases List.mem_singleton.mp hp with rfl
    exact hhd2

/-- C8: alignment of returned payloads, as established by the carve, the
free-list discipline of `allocate`, the split arithmetic, and the
status-footprint of `deallocate`'s four actions: (1) every free-chain header
of a fresh block has an `element_alignment`-aligned payload position; (2) a
successful `allocate` returns the payload `base + 4·(fp+1)` of a free-chain
header `fp`; (3) hence, when the block's free-chain headers are aligned and
the base is aligned, the returned pointer is aligned to the block's
alignment; (4) the split path creates its new free header just below the
`element_alignment`-multiple `nextAlignedStart`, preserving (1); (5)-(10)
`mergePC`/`mergePCN`/`mergeCN`/`standalone` change the free status of no
header position other than the deallocated header `C` itself (aligned by
(3), as its payload was returned by `allocate`), so merging preserves (1). -/
theorem allocate_returns_aligned_pointers :
    (∀ base bs al, (mkMemoryBlock base bs al).elementAlignment ≤ 16384 →
      (mkMemoryBlock base bs al).capacity < U32 →
      ∀ p ∈ (mkMemoryBlock base bs al).freeChain,
        (p + 1) % (mkMemoryBlock base bs al).elementAlignment = 0)
    ∧ (∀ (bl : MemoryBlock) size p bl', bl.allocate size = (.ok (some p), bl') →
        ∃ fp ∈ bl.freeChain, p = bl.base + sizeofElement * (fp + 1))
    ∧ (∀ (bl : MemoryBlock) size p bl',
        (∀ fp ∈ bl.freeChain, (fp + 1) % bl.elementAlignment = 0) →
        bl.alignment = sizeofElement * bl.elementAlignment →
        bl.alignment ∣ bl.base →
        bl.allocate size = (.ok (some p), bl') → bl.alignment ∣ p)
    ∧ (∀ fp needed ea, 0 < ea → fp + 1 + needed + ea < U32 →
        nextAlignedStartCalc fp needed ea % ea = 0)
    ∧ (∀ bl P C N q, elemStatus ((mergePC bl P C N).memory q) = elemStatus (bl.memory q))
    ∧ (∀ bl P C N NN NPF NNF PPF PNF q, q ≠ P + 1 → q ≠ P + 2 → q ≠ NPF + 2 → q ≠ NNF + 1 →
        elemStatus ((mergePCN bl P C N NN NPF NNF PPF PNF).memory q) = elemStatus (bl.memory q))
    ∧ (∀ bl C N NN NPF NNF q, q ≠ C → q ≠ C + 1 → q ≠ C + 2 → q ≠ NPF + 2 → q ≠ NNF + 1 →
        elemStatus ((mergeCN bl C N NN NPF NNF).memory q) = elemStatus (bl.memory q))
    ∧ (∀ bl C N NN NPF NNF, NPF + 2 ≠ C → NNF + 1 ≠ C → NN ≠ C →
        elemStatus ((mergeCN bl C N NN NPF NNF).memory C) = 1)
    ∧ (∀ bl C q, q ≠ C → q ≠ C + 1 → q ≠ C + 2 → q ≠ bl.head + 1 →
        elemStatus ((standalone bl C).memory q) = elemStatus (bl.memory q))
    ∧ (∀ bl C, bl.head + 1 ≠ C → elemStatus ((standalone bl C).memory C) = 1) := by
  have hB : ∀ (bl : MemoryBlock) size p bl', bl.allocate size = (.ok (some p), bl') →
      ∃ fp ∈ bl.freeChain, p = bl.base + sizeofElement * (fp + 1) := by
    intro bl size p bl' h
    unfold MemoryBlock.allocate at h
    by_cases h1 : size > bl.maximumAllocationSize
    · rw [if_pos h1] at h
      exact absurd (congrArg Prod.fst h) (by simp)
    rw [if_neg h1] at h
    by_cases h2 : bl.count = 0
    · rw [if_pos h2] at h
      exact absurd (congrArg Prod.fst h) (by simp)
    rw [if_neg h2] at h
    exact allocateLoop_some_mem size (bl.numElements + 1) bl bl.head p bl' h
  refine ⟨fun base bs al h1 h2 =>
      C8aux_carve_chain_aligned base bs al (le_trans h1 (by norm_num)) h2,
    hB, ?_, ?_, mergePC_status, mergePCN_status,
    mergeCN_status, mergeCN_status_at_C, standalone_status, standalone_status_at_C⟩
  · intro bl size p bl' hchain halg hbase h
    obtain ⟨fp, hfp, rfl⟩ := hB bl size p bl' h
    refine dvd_add hbase ?_
    rw [halg]
    exact Nat.mul_dvd_mul_left sizeofElement (Nat.dvd_of_mod_eq_zero (hchain fp hfp))
  · intro fp needed ea h0 hlt
    have hx : (fp + 1 + needed + ea) / ea * ea ≤ fp + 1 + needed + ea :=
      Nat.div_mul_le_self _ _
    unfold nextAlignedStartCalc
    rw [Nat.mod_eq_of_lt (lt_of_le_of_lt hx hlt)]
    exact Nat.mul_mod_left _ _

/-- Witness for C8: every conjunct instantiated at concrete blocks and
positions, with all hypotheses discharged by evaluation. -/
theorem allocate_returns_aligned_pointers_witness :
    ((mkMemoryBlock 0 256 8).elementAlignment ≤ 16384
      ∧ (mkMemoryBlock 0 256 8).capacity < U32
      ∧ ∀ p ∈ (mkMemoryBlock 0 256 8).freeChain,
          (p + 1) % (mkMemoryBlock 0 256 8).elementAlignment = 0)
    ∧ ((mkMemoryBlock 0 256 8).allocate 16
          = (.ok (some 8), ((mkMemoryBlock 0 256 8).allocate 16).2)
      ∧ ∃ fp ∈ (mkMemoryBlock 0 256 8).freeChain,
          8 = (mkMemoryBlock 0 256 8).base + sizeofElement * (fp + 1))
    ∧ (mkMemoryBlock 0 256 8).alignment ∣ 8
    ∧ (0 < 2 ∧ 1 + 1 + 3 + 2 < U32 ∧ nextAlignedStartCalc 1 3 2 % 2 = 0)
    ∧ elemStatus ((mergePC (mkMemoryBlock 0 128 4) 1 5 9).memory 13)
        = elemStatus ((mkMemoryBlock 0 128 4).memory 13)
    ∧ elemStatus ((mergePCN (mkMemoryBlock 0 128 4) 1 5 9 13 17 21 25 29).memory 4)
        = elemStatus ((mkMemoryBlock 0 128 4).memory 4)
    ∧ elemStatus ((mergeCN (mkMemoryBlock 0 128 4) 5 9 13 17 21).memory 3)
        = elemStatus ((mkMemoryBlock 0 128 4).memory 3)
    ∧ elemStatus ((mergeCN (mkMemoryBlock 0 128 4) 5 9 13 17 21).memory 5) = 1
    ∧ elemStatus ((standalone (mkMemoryBlock 0 128 4) 5).memory 3)
        = elemStatus ((mkMemoryBlock 0 128 4).memory 3)
    ∧ elemStatus ((standalone (mkMemoryBlock 0 128 4) 5).memory 5) = 1 :=
  ⟨⟨by decide, by decide,
      allocate_returns_aligned_pointers.1 0 256 8 (by decide) (by decide)⟩,
    ⟨rfl, allocate_returns_aligned_pointers.2.1 (mkMemoryBlock 0 256 8) 16 8
      ((mkMemoryBlock 0 256 8).allocate 16).2 rfl⟩,
    allocate_returns_aligned_pointers.2.2.1 (mkMemoryBlock 0 256 8) 16 8
      ((mkMemoryBlock 0 256 8).allocate 16).2 (by decide) (by decide) (by decide) rfl,
    ⟨by decide, by decide,
      allocate_returns_aligned_pointers.2.2.2.1 1 3 2 (by decide) (by decide)⟩,
    allocate_returns_aligned_pointers.2.2.2.2.1 (mkMemoryBlock 0 128 4) 1 5 9 13,
    allocate_returns_aligned_pointers.2.2.2.2.2.1 (mkMemoryBlock 0 128 4) 1 5 9 13 17 21 25 29 4
      (by decide) (by decide) (by decide) (by decide),
    allocate_returns_aligned_pointers.2.2.2.2.2.2.1 (mkMemoryBlock 0 128 4) 5 9 13 17 21 3
      (by decide) (by decide) (by decide) (by decide) (by decide),
    allocate_returns_aligned_pointers.2.2.2.2.2.2.2.1 (mkMemoryBlock 0 128 4) 5 9 13 17 21
      (by decide) (by decide) (by decide),
    allocate_returns_aligned_pointers.2.2.2.2.2.2.2.2.1 (mkMemoryBlock 0 128 4) 5 3
      (by decide) (by decide) (by decide) (by decide),
    allocate_returns_aligned_pointers.2.2.2.2.2.2.2.2.2 (mkMemoryBlock 0 128 4) 5 (by decide)⟩

/-- C3: the affinity guard is `>` instead of `>=`: on the fresh facade
(affinity vector length 4) an `allocate` at affinity 4 does not grow the
vector and the subsequent `allocatorMemoryBlocks[4]` access is out of bounds
(modelled as the explicit error); for affinities strictly greater than the
length the resize does make the access in bounds. -/
theorem allocate_affinity_guard_off_by_one :
    ia0.pools.length = 4
    ∧ IntrusiveAllocator.allocate ia0 64 4 = .error "allocatorMemoryBlocks index out of bounds"
    ∧ (∀ (pools : List (Option MBlocksState)) (n : Nat),
        (growTo pools n).length = max pools.length n) := by
  refine ⟨rfl, rfl, ?_⟩
  intro xs n
  simp only [growTo, List.length_append, List.length_replicate]
  omega

/-- C4: `OriginalBlockAllocator::allocate`'s fallback branch (line 133) calls
itself with identical arguments, so whenever the selected pool's entry is
null, or the pool's own allocation fails, no amount of fuel lets the call
return: the code does not terminate on those inputs. -/
theorem originalAllocate_self_recursion_diverges (newPool : OMBsModel) (size : Nat) :
    (∀ fuel, originalAllocateFuel newPool fuel [none] size 0 = none)
    ∧ (∀ fuel, originalAllocateFuel newPool fuel [some nullPool] size 0 = none) := by
  constructor
  · intro fuel
    induction fuel with
    | zero => rfl
    | succ n ih => exact ih
  · intro fuel
    induction fuel with
    | zero => rfl
    | succ n ih => exact ih

/-- C6: on a fresh intrusive facade, an oversize `allocate` succeeds through
the large-allocation path, but `deallocate` of the returned pointer returns
`false`: the early return on an empty block map (line 1308) skips the
`largeAllocations` lookup entirely.  `totalReservedSize` (a TODO stub,
constantly 0) is trivially unchanged. -/
theorem intrusive_roundtrip_fails_on_fresh_oversize :
    IntrusiveAllocator.allocate ia0 2097152 0 = .ok (some 4096, c6state1)
    ∧ lookupLarge c6state1.largeAllocations 4096 = some 2097152
    ∧ IntrusiveAllocator.deallocate c6state1 4096 2097152 = .ok (false, c6state1)
    ∧ IntrusiveAllocator.totalReservedSize c6state1
        = IntrusiveAllocator.totalReservedSize ia0 :=
  ⟨rfl, rfl, rfl, rfl⟩

end VsgAlloc
